import Mathlib

/-!
Verification of the analytics core of a LeetCode progress tracker
(`src/data_processor.py`).  The Python code is shallowly embedded:
dictionaries of loosely typed values become structures over a small
`PyVal` type, Python exceptions become `Except`, `datetime.date`
becomes a year/month/day triple with rata-die arithmetic, and Python
string operations are modelled on ASCII character lists (the repository
only ever manipulates ASCII data).  All definitions are executable.
-/

/-! ## Python string primitives (modelled on ASCII) -/

/-- Lower-casing of a single ASCII character, modelling Python `str.lower`
restricted to ASCII (the only data this repository manipulates): code
points 65-90 are shifted up by 32, everything else is unchanged. -/
def asciiLower (c : Char) : Char :=
  if 65 ≤ c.toNat ∧ c.toNat ≤ 90 then Char.ofNat (c.toNat + 32) else c

/-- Upper-casing of a single ASCII character, modelling Python `str.upper`
restricted to ASCII: code points 97-122 are shifted down by 32. -/
def asciiUpper (c : Char) : Char :=
  if 97 ≤ c.toNat ∧ c.toNat ≤ 122 then Char.ofNat (c.toNat - 32) else c

/-- ASCII letters, the characters Python `str.title` treats as cased here. -/
def isAsciiLetter (c : Char) : Bool :=
  (65 ≤ c.toNat && c.toNat ≤ 90) || (97 ≤ c.toNat && c.toNat ≤ 122)

/-- Python `str.lower` on the model strings. -/
def pyLower (s : String) : String :=
  ⟨s.data.map asciiLower⟩

/-- Helper for `pyTitle`: the boolean records whether the previous character
was cased (a letter); a letter after a non-letter is upper-cased, a letter
after a letter is lower-cased, exactly as Python `str.title` does. -/
def titleGo : Bool → List Char → List Char
  | _, [] => []
  | prev, c :: t =>
      (if isAsciiLetter c then (if prev then asciiLower c else asciiUpper c) else c)
        :: titleGo (isAsciiLetter c) t

/-- Python `str.title` on the model strings. -/
def pyTitle (s : String) : String :=
  ⟨titleGo false s.data⟩

/-- Whitespace characters removed by Python `str.strip` (ASCII subset). -/
def isPyWs (c : Char) : Bool :=
  c == ' ' || c == '\t' || c == '\n' || c == '\r' || c == '\x0b' || c == '\x0c'

/-- Python `str.strip`: remove leading and trailing whitespace. -/
def pyStrip (s : String) : String :=
  ⟨((s.data.dropWhile isPyWs).reverse.dropWhile isPyWs).reverse⟩

/-- Does the needle list occur at the start of the haystack list? -/
def leadsList : List Char → List Char → Bool
  | [], _ => true
  | _ :: _, [] => false
  | a :: as, b :: bs => a == b && leadsList as bs

/-- Python substring containment `needle in hay` on the model strings. -/
def containsSub : List Char → List Char → Bool
  | n, [] => n.isEmpty
  | n, h :: t => leadsList n (h :: t) || containsSub n t

/-- Python `a in b` for strings. -/
def pyInStr (needle hay : String) : Bool :=
  containsSub needle.data hay.data

/-- Python string `<` (lexicographic on code points) as a boolean. -/
def charListLt : List Char → List Char → Bool
  | [], [] => false
  | [], _ :: _ => true
  | _ :: _, [] => false
  | a :: as, b :: bs => a < b || (a == b && charListLt as bs)

/-- Python `s < t` on strings. -/
def strLtB (s t : String) : Bool :=
  charListLt s.data t.data

/-- Python `s <= t` on strings (total order, so the negation of `t < s`). -/
def strLeB (s t : String) : Bool :=
  !(strLtB t s)

/-! ## Python values

Dictionary fields in the repository carry strings, numbers, booleans or
are absent.  `PyVal` models the values that actually flow through
`DataProcessor.validate_problem_data`; a missing key is `Option.none`
at the record level. -/

inductive PyVal where
  | str (s : String)
  | int (n : Int)
  | bool (b : Bool)
  | none
  deriving DecidableEq

/-- Python `str(v)`. -/
def strPy : PyVal → String
  | .str s => s
  | .int n => toString n
  | .bool b => if b then "True" else "False"
  | .none => "None"

/-- Python truthiness of a value. -/
def truthy : PyVal → Bool
  | .str s => s ≠ ""
  | .int n => n ≠ 0
  | .bool b => b
  | .none => false

/-- Decimal digit test (code points 48-57), as Python/CPython regexes use. -/
def isDigitB (c : Char) : Bool :=
  48 ≤ c.toNat && c.toNat ≤ 57

/-- Numeric value of a digit list (most significant first). -/
def digitsToNat (cs : List Char) : Nat :=
  cs.foldl (fun a c => 10 * a + (c.toNat - 48)) 0

/-- Python `float(s)` on a string, modelling the decimal-literal grammar
(optional sign, digits with at most one point; exponents, infinities and
NaN never occur in this repository's data).  Fails exactly when Python
would raise `ValueError` on such literals. -/
def pyFloatOfString (s : String) : Except String ℚ :=
  let cs := (pyStrip s).data
  let (sgn, body) : ℚ × List Char :=
    match cs with
    | '-' :: t => (-1, t)
    | '+' :: t => (1, t)
    | t => (1, t)
  let ip := body.takeWhile isDigitB
  let rest := body.drop ip.length
  match rest with
  | [] =>
      if ip.isEmpty then .error "could not convert string to float"
      else .ok (sgn * (digitsToNat ip : ℚ))
  | '.' :: fp =>
      if fp.all isDigitB && !(ip.isEmpty && fp.isEmpty) then
        .ok (sgn * ((digitsToNat ip : ℚ) + (digitsToNat fp : ℚ) / (10 : ℚ) ^ fp.length))
      else .error "could not convert string to float"
  | _ => .error "could not convert string to float"

/-- Python `float(v)`. -/
def pyFloat : PyVal → Except String ℚ
  | .str s => pyFloatOfString s
  | .int n => .ok (n : ℚ)
  | .bool b => .ok (if b then 1 else 0)
  | .none => .error "float argument must be a string or a real number"

/-- Python `int(s)` on a string: optional sign and decimal digits only. -/
def pyIntOfString (s : String) : Except String Int
  :=
  let cs := (pyStrip s).data
  let (sgn, body) : Int × List Char :=
    match cs with
    | '-' :: t => (-1, t)
    | '+' :: t => (1, t)
    | t => (1, t)
  if !body.isEmpty && body.all isDigitB then
    .ok (sgn * (digitsToNat body : Int))
  else .error "invalid literal for int"

/-- Python `int(v)`. -/
def pyInt : PyVal → Except String Int
  | .str s => pyIntOfString s
  | .int n => .ok n
  | .bool b => .ok (if b then 1 else 0)
  | .none => .error "int argument must be a string or a number"

/-! ## Dates

`datetime.date` is modelled as a year/month/day triple; subtraction of
dates is carried out through the standard civil-calendar rata-die
(`toRD`, days since 1970-01-01, Hinnant's days-from-civil formula). -/

structure Date where
  year : Nat
  month : Nat
  day : Nat
  deriving DecidableEq

/-- Gregorian leap year. -/
def isLeap (y : Nat) : Bool :=
  y % 4 == 0 && (y % 100 != 0 || y % 400 == 0)

/-- Number of days in a month. -/
def daysInMonth (y m : Nat) : Nat :=
  if m = 2 then (if isLeap y then 29 else 28)
  else if m = 4 ∨ m = 6 ∨ m = 9 ∨ m = 11 then 30
  else 31

/-- Validity of a date as accepted by Python `datetime.date`
(`MINYEAR = 1`, `MAXYEAR = 9999`). -/
def Date.okay (d : Date) : Prop :=
  1 ≤ d.year ∧ d.year ≤ 9999 ∧ 1 ≤ d.month ∧ d.month ≤ 12 ∧
    1 ≤ d.day ∧ d.day ≤ daysInMonth d.year d.month

instance (d : Date) : Decidable d.okay := by
  unfold Date.okay
  infer_instance

/-- Days since 1970-01-01 (negative before the epoch). -/
def toRD (dt : Date) : Int :=
  let y : Int := if dt.month ≤ 2 then (dt.year : Int) - 1 else (dt.year : Int)
  let era : Int := y / 400
  let yoe : Int := y - era * 400
  let mp : Int := ((dt.month : Int) + 9) % 12
  let doy : Int := (153 * mp + 2) / 5 + (dt.day : Int) - 1
  let doe : Int := yoe * 365 + yoe / 4 - yoe / 100 + doy
  era * 146097 + doe - 719468

/-- Python `date.weekday()`: Monday is 0, Sunday is 6
(1970-01-01 was a Thursday). -/
def weekdayIdx (dt : Date) : Int :=
  (toRD dt + 3) % 7

/-- The calendar day before a given date. -/
def prevDay (dt : Date) : Date :=
  if 1 < dt.day then ⟨dt.year, dt.month, dt.day - 1⟩
  else if 1 < dt.month then ⟨dt.year, dt.month - 1, daysInMonth dt.year (dt.month - 1)⟩
  else ⟨dt.year - 1, 12, 31⟩

/-- Subtracting `n` days, modelling `date - timedelta(days=n)`. -/
def subDays (dt : Date) : Nat → Date
  | 0 => dt
  | n + 1 => prevDay (subDays dt n)

/-- Two-digit zero-padded decimal rendering. -/
def pad2 (n : Nat) : List Char :=
  [Char.ofNat (48 + n / 10 % 10), Char.ofNat (48 + n % 10)]

/-- Four-digit zero-padded decimal rendering. -/
def pad4 (n : Nat) : List Char :=
  [Char.ofNat (48 + n / 1000 % 10), Char.ofNat (48 + n / 100 % 10),
   Char.ofNat (48 + n / 10 % 10), Char.ofNat (48 + n % 10)]

/-- Python `date.strftime('%Y-%m-%d')` (year zero-padded to four digits,
which is what CPython produces for all years of this repository's data). -/
def formatDate (dt : Date) : String :=
  ⟨pad4 dt.year ++ '-' :: pad2 dt.month ++ '-' :: pad2 dt.day⟩

/-- Month part of `strptime('%Y-%m-%d')`: one or two digits, value 1..12,
followed by a dash; returns the month and the characters after the dash.
Mirrors the CPython `_strptime` regular expression for `%m`. -/
def parseMonthPart : List Char → Option (Nat × List Char)
  | a :: b :: rest =>
      (match rest with
       | c :: rest2 =>
           if c = '-' then
             if isDigitB a && isDigitB b then
               if 1 ≤ digitsToNat [a, b] ∧ digitsToNat [a, b] ≤ 12 then
                 some (digitsToNat [a, b], rest2)
               else Option.none
             else Option.none
           else if b = '-' then
             if isDigitB a then
               if 1 ≤ digitsToNat [a] ∧ digitsToNat [a] ≤ 9 then
                 some (digitsToNat [a], c :: rest2)
               else Option.none
             else Option.none
           else Option.none
       | [] =>
           if b = '-' then
             if isDigitB a then
               if 1 ≤ digitsToNat [a] ∧ digitsToNat [a] ≤ 9 then some (digitsToNat [a], [])
               else Option.none
             else Option.none
           else Option.none)
  | _ => Option.none

/-- Day part of `strptime('%Y-%m-%d')`: one or two digits at the very end of
the string, value 1..31 (two-digit) or 1..9 (one-digit).  Mirrors the CPython
`_strptime` regular expression for `%d`. -/
def parseDayPart : List Char → Option Nat
  | [a, b] =>
      if isDigitB a && isDigitB b then
        if 1 ≤ digitsToNat [a, b] ∧ digitsToNat [a, b] ≤ 31 then some (digitsToNat [a, b])
        else Option.none
      else Option.none
  | [a] =>
      if isDigitB a then
        if 1 ≤ digitsToNat [a] ∧ digitsToNat [a] ≤ 9 then some (digitsToNat [a])
        else Option.none
      else Option.none
  | _ => Option.none

/-- Python `datetime.strptime(s, '%Y-%m-%d')`, returning `none` where Python
raises `ValueError`: exactly four year digits, a month and a day as accepted
by the `_strptime` regular expressions, and a day that exists in the given
month of the given year (with year at least 1). -/
def parseDate (s : String) : Option Date :=
  match s.data with
  | y1 :: y2 :: y3 :: y4 :: rest0 =>
      (match rest0 with
       | dash :: rest =>
           if dash = '-' then
             if isDigitB y1 && isDigitB y2 && isDigitB y3 && isDigitB y4 then
               match parseMonthPart rest with
               | some (m, rest2) =>
                   (match parseDayPart rest2 with
                    | some d =>
                        if 1 ≤ digitsToNat [y1, y2, y3, y4] ∧ 1 ≤ d ∧
                            d ≤ daysInMonth (digitsToNat [y1, y2, y3, y4]) m then
                          some ⟨digitsToNat [y1, y2, y3, y4], m, d⟩
                        else Option.none
                    | Option.none => Option.none)
               | Option.none => Option.none
             else Option.none
           else Option.none
       | [] => Option.none)
  | _ => Option.none

/-- The `DataProcessor._get_week_start` helper: parse, step back to the
Monday of the week, reformat; on a parse failure return the input string. -/
def getWeekStart (s : String) : String :=
  match parseDate s with
  | some dt => formatDate (subDays dt (weekdayIdx dt).toNat)
  | Option.none => s

/-- The `DataProcessor._get_month_start` helper: parse, replace the day
by 1, reformat; on a parse failure return the input string. -/
def getMonthStart (s : String) : String :=
  match parseDate s with
  | some dt => formatDate ⟨dt.year, dt.month, 1⟩
  | Option.none => s

example : parseDate "2024-01-01" = some ⟨2024, 1, 1⟩ := by decide
example : parseDate "2024-1-1" = some ⟨2024, 1, 1⟩ := by decide
example : parseDate "2024-02-30" = Option.none := by decide
example : parseDate "not-a-date" = Option.none := by decide
example : toRD ⟨2024, 1, 1⟩ = 19723 := by decide
example : weekdayIdx ⟨2024, 1, 1⟩ = 0 := by decide
example : getWeekStart "2024-01-03" = "2024-01-01" := by decide
example : getMonthStart "2024-02-15" = "2024-02-01" := by decide

/-! ## The Problem Record Normalizer (`DataProcessor.validate_problem_data`)

A raw fetched record is a dictionary; the fields read by
`validate_problem_data` are modelled below, `Option.none` standing for an
absent key.  The list-valued fields `topics` and `companies` hold Python
lists of values. -/

structure RawProblem where
  title : Option PyVal := Option.none
  problem_id : Option PyVal := Option.none
  title_slug : Option PyVal := Option.none
  difficulty : Option PyVal := Option.none
  topics : List PyVal := []
  companies : List PyVal := []
  date_solved : Option PyVal := Option.none
  language : Option PyVal := Option.none
  runtime : Option PyVal := Option.none
  memory : Option PyVal := Option.none
  submission_id : Option PyVal := Option.none
  is_paid_only : Option PyVal := Option.none
  category : Option PyVal := Option.none
  acceptance_rate : Option PyVal := Option.none
  attempts : Option PyVal := Option.none
  status : Option PyVal := Option.none
  deriving DecidableEq

/-- The canonical record emitted by the normalizer. -/
structure CleanProblem where
  title : String
  problem_id : String
  title_slug : String
  difficulty : String
  topics : List String
  companies : List String
  date_solved : String
  language : String
  runtime : String
  memory : String
  submission_id : String
  is_paid_only : Bool
  category : String
  acceptance_rate : ℚ
  attempts : Int
  status : String
  deriving DecidableEq

/-- Python `problem.get(key, default)` for scalar fields. -/
def getD (v : Option PyVal) (dflt : PyVal) : PyVal :=
  v.getD dflt

/-- The record literal built by the loop body of `validate_problem_data`
(before the difficulty and date fix-ups), given the already-coerced
`acceptance_rate` and `attempts` values. -/
def cleanBase (p : RawProblem) (ar : ℚ) (att : Int) : CleanProblem :=
  { title := pyStrip (strPy (getD p.title (.str ""))),
    problem_id := pyStrip (strPy (getD p.problem_id (.str ""))),
    title_slug := pyStrip (strPy (getD p.title_slug (.str ""))),
    difficulty := pyTitle (pyStrip (strPy (getD p.difficulty (.str "")))),
    topics := (p.topics.filter truthy).map (fun t => pyStrip (strPy t)),
    companies := (p.companies.filter truthy).map (fun t => pyStrip (strPy t)),
    date_solved := pyStrip (strPy (getD p.date_solved (.str ""))),
    language := pyStrip (strPy (getD p.language (.str ""))),
    runtime := pyStrip (strPy (getD p.runtime (.str ""))),
    memory := pyStrip (strPy (getD p.memory (.str ""))),
    submission_id := pyStrip (strPy (getD p.submission_id (.str ""))),
    is_paid_only := truthy (getD p.is_paid_only (.bool false)),
    category := pyStrip (strPy (getD p.category (.str ""))),
    acceptance_rate := ar,
    attempts := att,
    status := pyStrip (strPy (getD p.status (.str "Solved"))) }

/-- The difficulty validation statement: anything whose lower-casing is not
easy, medium or hard becomes Unknown. -/
def fixDifficulty (c : CleanProblem) : CleanProblem :=
  if pyLower c.difficulty = "easy" ∨ pyLower c.difficulty = "medium" ∨
      pyLower c.difficulty = "hard" then c
  else { c with difficulty := "Unknown" }

/-- The date validation statement: a non-empty `date_solved` on which
`strptime` raises is cleared to the empty string. -/
def fixDate (c : CleanProblem) : CleanProblem :=
  if c.date_solved ≠ "" then
    match parseDate c.date_solved with
    | some _ => c
    | Option.none => { c with date_solved := "" }
  else c

/-- Cleaning of one record with a truthy title: the body of the loop of
`validate_problem_data` minus the title check.  The `float` and `int`
coercions of `acceptance_rate` and `attempts` can raise, which aborts the
whole batch, hence the `Except`. -/
def cleanRecord (p : RawProblem) : Except String CleanProblem :=
  match pyFloat (getD p.acceptance_rate (.int 0)) with
  | .error e => .error e
  | .ok ar =>
  match pyInt (getD p.attempts (.int 1)) with
  | .error e => .error e
  | .ok att => .ok (fixDate (fixDifficulty (cleanBase p ar att)))

/-- The `DataProcessor.validate_problem_data` method: records without a
truthy title are skipped, the rest are cleaned in order; a coercion error
inside `cleanRecord` propagates out of the whole call, as the Python
exception would. -/
def validateProblemData : List RawProblem → Except String (List CleanProblem)
  | [] => .ok []
  | p :: rest =>
      if truthy (getD p.title (.str "")) then
        match cleanRecord p with
        | .error e => .error e
        | .ok c =>
            match validateProblemData rest with
            | .error e => .error e
            | .ok out => .ok (c :: out)
      else validateProblemData rest

/-! ## Analytics input records

The analytics methods (`categorize_by_topic`, the progress and streak
calculators and `generate_analytics`) read exactly three keys of each
record dictionary: `topics`, `difficulty` and `date_solved` (with the
usual `.get` defaults).  A record is therefore modelled by those three
fields. -/

structure Problem where
  topics : List String := []
  difficulty : String := ""
  date_solved : String := ""
  deriving DecidableEq

/-! ## The Topic Mapper (`DataProcessor._map_topics`)

`self.topic_mapping` is a Python dict, modelled as an association list in
insertion order (Python dicts preserve insertion order, which governs the
first-match-wins tie break of the substring pass). -/

/-- Python `topic in mapping` / `mapping[topic]`: exact key lookup. -/
def keyLookup (mapping : List (String × String)) (k : String) : Option String :=
  (mapping.find? (fun kv => kv.1 = k)).map (·.2)

/-- Does a mapping key match a topic by case-insensitive substring in
either direction (`key.lower() in topic.lower() or topic.lower() in
key.lower()`)? -/
def substrMatch (topic : String) (kv : String × String) : Bool :=
  pyInStr (pyLower kv.1) (pyLower topic) || pyInStr (pyLower topic) (pyLower kv.1)

/-- Resolution of one topic: exact match, else first substring match in
mapping order, else the topic itself. -/
def resolveTopic (mapping : List (String × String)) (topic : String) : String :=
  match keyLookup mapping topic with
  | some v => v
  | Option.none =>
      match mapping.find? (substrMatch topic) with
      | some kv => kv.2
      | Option.none => topic

/-- Python `set.add` modelled on a duplicate-free list (insertion order). -/
def setAdd (s : List String) (x : String) : List String :=
  if x ∈ s then s else s ++ [x]

/-- The `DataProcessor._map_topics` method: with an empty mapping the input
list is returned unchanged; otherwise each topic is resolved and collected
into a set. -/
def mapTopics (mapping : List (String × String)) (topics : List String) : List String :=
  if mapping.isEmpty then topics
  else topics.foldl (fun s t => setAdd s (resolveTopic mapping t)) []

/-! ## The Topic Aggregator (`DataProcessor.categorize_by_topic`) -/

/-- Per-topic statistics while aggregating (the Python defaultdict value,
including the `problems` list that is dropped from the final result). -/
structure TopicStatFull where
  total : Nat := 0
  solved : Nat := 0
  easy : Nat := 0
  medium : Nat := 0
  hard : Nat := 0
  last_solved : String := ""
  problems : List Problem := []
  deriving DecidableEq

/-- Per-topic statistics in the returned dictionary. -/
structure TopicStat where
  total : Nat
  solved : Nat
  easy : Nat
  medium : Nat
  hard : Nat
  last_solved : String
  deriving DecidableEq

/-- The update applied to one topic's statistics for one contributing
record (`total`/`solved` increments, difficulty buckets, `last_solved`
promotion, `problems` append). -/
def updateStats (p : Problem) (st : TopicStatFull) : TopicStatFull :=
  let diff := pyLower p.difficulty
  { total := st.total + 1,
    solved := st.solved + 1,
    easy := st.easy + (if diff = "easy" then 1 else 0),
    medium := st.medium + (if diff = "medium" then 1 else 0),
    hard := st.hard + (if diff = "hard" then 1 else 0),
    last_solved :=
      if p.date_solved ≠ "" ∧
          (st.last_solved = "" ∨ strLtB st.last_solved p.date_solved) then
        p.date_solved
      else st.last_solved,
    problems := st.problems ++ [p] }

/-- Update of the defaultdict at one key (insertion order preserved,
missing keys springing into existence with the zero statistics). -/
def alistUpdate (d : List (String × TopicStatFull)) (k : String) (p : Problem) :
    List (String × TopicStatFull) :=
  match d with
  | [] => [(k, updateStats p {})]
  | (k2, st) :: rest =>
      if k2 = k then (k2, updateStats p st) :: rest
      else (k2, st) :: alistUpdate rest k p

/-- Association-list lookup (Python dict access). -/
def alistFind (d : List (String × TopicStatFull)) (k : String) : Option TopicStatFull :=
  (d.find? (fun kv => kv.1 = k)).map (·.2)

/-- Lookup in the final topic dictionary. -/
def statFind (d : List (String × TopicStat)) (k : String) : Option TopicStat :=
  (d.find? (fun kv => kv.1 = k)).map (·.2)

/-- The `DataProcessor.categorize_by_topic` method: every record updates the
statistics of each of its mapped topics; the final dictionary drops the
per-topic `problems` lists. -/
def categorizeByTopic (mapping : List (String × String)) (problems : List Problem) :
    List (String × TopicStat) :=
  let full := problems.foldl
    (fun acc p => (mapTopics mapping p.topics).foldl (fun acc2 t => alistUpdate acc2 t p) acc)
    []
  full.map (fun kv =>
    (kv.1, { total := kv.2.total, solved := kv.2.solved, easy := kv.2.easy,
             medium := kv.2.medium, hard := kv.2.hard,
             last_solved := kv.2.last_solved }))

/-! ## The Progress/Streak Analyzer -/

/-- Insertion into a list sorted by a boolean "less or equal". -/
def insertLe {α : Type} (le : α → α → Bool) (x : α) : List α → List α
  | [] => [x]
  | y :: t => if le x y then x :: y :: t else y :: insertLe le x t

/-- Insertion sort, modelling Python `sorted` (ascending, stable). -/
def sortByLe {α : Type} (le : α → α → Bool) : List α → List α
  | [] => []
  | x :: t => insertLe le x (sortByLe le t)

/-- The truthy `date_solved` strings of a record list (the comprehension
`[p.get('date_solved','') for p in problems if p.get('date_solved')]`). -/
def datesOf (problems : List Problem) : List String :=
  problems.filterMap (fun p => if p.date_solved ≠ "" then some p.date_solved else Option.none)

/-- Parsed rata-die day numbers of the date strings, skipping those on
which `strptime` raises (the `try/except: continue` loop). -/
def rdsOf (dates : List String) : List Int :=
  dates.filterMap (fun s => (parseDate s).map toRD)

/-- The loop of `_calculate_streaks` over the second and later dates.
State: previous date, running streak `temp`, best streak so far, and the
`current_streak` variable.  On every iteration `current_streak` is
overwritten with `temp` whenever the date is within one day of today. -/
def streaksGo (today : Int) : Int → Nat → Nat → Nat → List Int → Nat × Nat
  | _, temp, best, current, [] => (current, max best temp)
  | prev, temp, best, current, d :: rest =>
      let tb : Nat × Nat := if d - prev = 1 then (temp + 1, best) else (1, max best temp)
      let current2 := if today - d ≤ 1 then tb.1 else current
      streaksGo today d tb.1 tb.2 current2 rest

/-- The `DataProcessor._calculate_streaks` method; `today` is the rata-die
of `datetime.now().date()`.  Returns `(current_streak, longest_streak)`. -/
def calculateStreaks (today : Int) (problems : List Problem) : Nat × Nat :=
  let dates := datesOf problems
  if dates.isEmpty then (0, 0)
  else
    let rds := rdsOf dates
    if rds.isEmpty then (0, 0)
    else
      match sortByLe (fun a b => a ≤ b) rds with
      | [] => (0, 0)
      | d :: rest =>
          streaksGo today d 1 0 (if today - d ≤ 1 then 1 else 0) rest

/-- One row of the daily progress table. -/
structure DailyEntry where
  date : String
  daily_count : Nat
  weekly_count : Nat
  monthly_count : Nat
  total_solved : Nat
  streak : Nat
  deriving DecidableEq

/-- Keys of a Python dict built by repeated insertion, in insertion order. -/
def firstDedup (l : List String) : List String :=
  l.foldl setAdd []

/-- The entry-building loop of `_calculate_daily_progress`: iterate over the
sorted distinct dates keeping a running total; weekly and monthly counts sum
the daily counts of every distinct date sharing the same week-start
(respectively month-start) string. -/
def buildEntries (keys : List String) (counts : String → Nat) :
    Nat → List String → List DailyEntry
  | _, [] => []
  | total, d :: rest =>
      let c := counts d
      { date := d,
        daily_count := c,
        weekly_count :=
          ((keys.filter (fun d2 => getWeekStart d2 = getWeekStart d)).map counts).sum,
        monthly_count :=
          ((keys.filter (fun d2 => getMonthStart d2 = getMonthStart d)).map counts).sum,
        total_solved := total + c,
        streak := 0 } :: buildEntries keys counts (total + c) rest

/-- The `DataProcessor._calculate_daily_progress` method. -/
def calculateDailyProgress (problems : List Problem) : List DailyEntry :=
  let ds := datesOf problems
  let keys := firstDedup ds
  buildEntries keys (fun d => ds.count d) 0 (sortByLe strLeB keys)

/-- The fields of the metrics dictionary of `calculate_progress_metrics`
that `generate_analytics` reads (the pattern/difficulty-progression entries
and the wall-clock `last_updated` stamp are not consumed by any claim and
are omitted). -/
structure Metrics where
  current_streak : Nat
  longest_streak : Nat
  daily_progress : List DailyEntry
  deriving DecidableEq

/-- The `DataProcessor.calculate_progress_metrics` method: `none` models
the empty dictionary returned for an empty input list. -/
def calculateProgressMetrics (today : Int) (problems : List Problem) : Option Metrics :=
  if problems.isEmpty then Option.none
  else
    let sorted_problems :=
      sortByLe (fun a b => strLeB a.date_solved b.date_solved)
        (problems.filter (fun p => p.date_solved ≠ ""))
    let dp := calculateDailyProgress sorted_problems
    let cl := calculateStreaks today sorted_problems
    some { current_streak := cl.1, longest_streak := cl.2, daily_progress := dp }

/-- Difficulty score used by `_calculate_complexity_trend`
(easy 1, medium 2, hard 3, anything else 0). -/
def difficultyScore (p : Problem) : Nat :=
  let diff := pyLower p.difficulty
  if diff = "easy" then 1 else if diff = "medium" then 2
  else if diff = "hard" then 3 else 0

/-- The `DataProcessor._calculate_complexity_trend` method.  The Python
float averages `sum/len` and the literal `0.2` are modelled by exact
rational arithmetic; for the integer sums and list lengths that occur
here the double-precision comparisons of the source agree with the exact
ones. -/
def complexityTrend (problems : List Problem) : String :=
  if problems.length < 10 then "Insufficient data"
  else
    let mid := problems.length / 2
    let firstHalf := problems.take mid
    let secondHalf := problems.drop mid
    let firstAvg : ℚ := ((firstHalf.map difficultyScore).sum : ℚ) / (firstHalf.length : ℚ)
    let secondAvg : ℚ := ((secondHalf.map difficultyScore).sum : ℚ) / (secondHalf.length : ℚ)
    if secondAvg > firstAvg + 1/5 then "Improving - solving harder problems"
    else if secondAvg < firstAvg - 1/5 then "Focusing on easier problems"
    else "Consistent difficulty level"

/-! ## The Analytics Assembler (`DataProcessor.generate_analytics`) -/

/-- The summary block of the report (`last_updated`, a wall-clock string,
is omitted). -/
structure SummaryStats where
  total_problems : Nat
  total_solved : Nat
  current_streak : Nat
  longest_streak : Nat
  deriving DecidableEq

/-- The full analytics report handed to the sheet writer. -/
structure AnalyticsReport where
  topic_analytics : List (String × TopicStat)
  progress_data : List DailyEntry
  summary_stats : SummaryStats
  deriving DecidableEq

/-- The `DataProcessor.generate_analytics` method. -/
def generateAnalytics (mapping : List (String × String)) (today : Int)
    (problems : List Problem) : AnalyticsReport :=
  let ta := categorizeByTopic mapping problems
  let pm := calculateProgressMetrics today problems
  { topic_analytics := ta,
    progress_data := (pm.map (·.daily_progress)).getD [],
    summary_stats :=
      { total_problems := problems.length,
        total_solved := (problems.filter (fun p => p.date_solved ≠ "")).length,
        current_streak := (pm.map (·.current_streak)).getD 0,
        longest_streak := (pm.map (·.longest_streak)).getD 0 } }

/-! ## Specification-side definitions

These are written from the specification's wording (maximum of a set of
date strings, maximal runs of calendar-consecutive dates, Monday-anchored
weeks, calendar months) and are compared with the code-side definitions
above in the theorems. -/

/-- Python string maximum (later argument wins only when strictly larger). -/
def strMax (a b : String) : String :=
  if strLtB a b then b else a

/-- The lexicographically maximal string of a list, the empty string for
the empty list.  Applied to ISO date strings with possible empties this is
"the lexicographically maximal non-empty date, or empty if none". -/
def listMaxStr (l : List String) : String :=
  l.foldl strMax ""

/-- Does a record contribute to a topic (the topic appears among the
record's mapped topics)? -/
def contributes (mapping : List (String × String)) (t : String) (p : Problem) : Bool :=
  t ∈ mapTopics mapping p.topics

/-- Date strings of the records contributing to a topic. -/
def contribDates (mapping : List (String × String)) (t : String)
    (problems : List Problem) : List String :=
  (problems.filter (contributes mapping t)).map (·.date_solved)

/-- Is a list of day numbers a run of calendar-consecutive days? -/
def chainB : List Int → Bool
  | [] => true
  | [_] => true
  | a :: b :: t => (b == a + 1) && chainB (b :: t)

/-- Maximum of a list of naturals (0 for the empty list). -/
def maxNat (l : List Nat) : Nat :=
  l.foldr max 0

/-- All contiguous segments of a list. -/
def segmentsOf {α : Type} (l : List α) : List (List α) :=
  l.tails.flatMap List.inits

/-- The length of the longest contiguous segment of calendar-consecutive
days: the specification's "maximal run of calendar-consecutive solve
dates".  (Every maximal run is a contiguous consecutive segment, and every
contiguous consecutive segment extends to a maximal run, so the longest
lengths agree.) -/
def maxChainLen (l : List Int) : Nat :=
  maxNat (((segmentsOf l).filter chainB).map List.length)

/-- The Monday on or before a date (the spec's Monday-anchored week
start), as a date. -/
def weekStartDate (dt : Date) : Date :=
  subDays dt (weekdayIdx dt).toNat

/-- Do two date strings parse and fall in the same Monday-anchored week? -/
def sameWeekB (s t : String) : Bool :=
  match parseDate s, parseDate t with
  | some a, some b => weekStartDate a = weekStartDate b
  | _, _ => false

/-- Do two date strings parse and fall in the same calendar month? -/
def sameMonthB (s t : String) : Bool :=
  match parseDate s, parseDate t with
  | some a, some b => a.year = b.year ∧ a.month = b.month
  | _, _ => false


/-! ## Order facts about the modelled Python string comparison -/

theorem charListLt_irrefl : ∀ l : List Char, charListLt l l = false := by
  intro l
  induction l with
  | nil => rfl
  | cons a t ih =>
      simp [charListLt, ih]

theorem charListLt_trichot : ∀ a b : List Char, charListLt a b = true ∨ a = b ∨ charListLt b a = true := by
  intro a
  induction a with
  | nil =>
      intro b
      cases b with
      | nil => exact Or.inr (Or.inl rfl)
      | cons c t => exact Or.inl rfl
  | cons c t ih =>
      intro b
      cases b with
      | nil => exact Or.inr (Or.inr rfl)
      | cons d u =>
          rcases lt_trichotomy c d with h | h | h
          · exact Or.inl (by simp [charListLt, h])
          · subst h
            rcases ih u with h2 | h2 | h2
            · exact Or.inl (by simp [charListLt, h2])
            · exact Or.inr (Or.inl (by rw [h2]))
            · exact Or.inr (Or.inr (by simp [charListLt, h2]))
          · exact Or.inr (Or.inr (by simp [charListLt, h]))

theorem charListLt_asymm : ∀ a b : List Char, charListLt a b = true → charListLt b a = false := by
  intro a
  induction a with
  | nil =>
      intro b h
      cases b with
      | nil => rfl
      | cons d u => rfl
  | cons c t ih =>
      intro b h
      cases b with
      | nil => simp [charListLt] at h
      | cons d u =>
          simp only [charListLt, Bool.or_eq_true, Bool.and_eq_true, beq_iff_eq,
            decide_eq_true_eq] at h
          rcases h with h | ⟨rfl, h⟩
          · have h1 : ¬ d < c := lt_asymm h
            have h2 : d ≠ c := (ne_of_lt h).symm
            simp [charListLt, h1, h2]
          · have h3 := ih u h
            simp [charListLt, lt_irrefl, h3]

theorem strLtB_asymm {a b : String} (h : strLtB a b = true) : strLtB b a = false :=
  charListLt_asymm _ _ h

theorem strLtB_total (a b : String) : strLtB a b = true ∨ a = b ∨ strLtB b a = true := by
  rcases charListLt_trichot a.data b.data with h | h | h
  · exact Or.inl h
  · refine Or.inr (Or.inl ?_)
    cases a
    cases b
    exact congrArg String.mk h
  · exact Or.inr (Or.inr h)

theorem strLtB_irrefl (a : String) : strLtB a a = false :=
  charListLt_irrefl a.data

/-- C9: `generate_analytics` applied to the empty list returns a report with
an empty topic mapping, an empty progress sequence, zero total problems and
zero total solved (the Python code cannot raise on this path, which the
embedding renders as these equations holding definitionally). -/
theorem claim_C9_empty_analytics :
    ∀ (mapping : List (String × String)) (today : Int),
      (generateAnalytics mapping today []).topic_analytics = [] ∧
      (generateAnalytics mapping today []).progress_data = [] ∧
      (generateAnalytics mapping today []).summary_stats.total_problems = 0 ∧
      (generateAnalytics mapping today []).summary_stats.total_solved = 0 := by
  intro mapping today
  exact ⟨rfl, rfl, rfl, rfl⟩

theorem buildEntries_streak_zero :
    ∀ (l : List String) (keys : List String) (counts : String → Nat) (total : Nat)
      (e : DailyEntry), e ∈ buildEntries keys counts total l → e.streak = 0 := by
  intro l
  induction l with
  | nil =>
      intro keys counts total e he
      simp [buildEntries] at he
  | cons d rest ih =>
      intro keys counts total e he
      simp only [buildEntries, List.mem_cons] at he
      rcases he with rfl | he
      · rfl
      · exact ih keys counts _ e he

/-- C10: every row of the progress table produced by `generate_analytics`
has its `streak` field equal to 0; the per-row placeholder is never filled
in even though streaks are computed for the summary block. -/
theorem claim_C10_streak_placeholder :
    ∀ (mapping : List (String × String)) (today : Int) (problems : List Problem)
      (e : DailyEntry), e ∈ (generateAnalytics mapping today problems).progress_data →
      e.streak = 0 := by
  intro mapping today problems e he
  unfold generateAnalytics calculateProgressMetrics at he
  by_cases hp : problems.isEmpty
  · simp [hp] at he
  · simp only [hp, Bool.false_eq_true, if_false, Option.map_some, Option.getD_some] at he
    unfold calculateDailyProgress at he
    exact buildEntries_streak_zero _ _ _ _ _ he

theorem claim_C10_witness :
    ({ date := "2024-01-01", daily_count := 1, weekly_count := 1, monthly_count := 1,
       total_solved := 1, streak := 0 } : DailyEntry).streak = 0 :=
  claim_C10_streak_placeholder [] 0 [{ date_solved := "2024-01-01" }] _ (by decide)

/-! ## Streak monotonicity and the three-day scenario (C5) -/

theorem streaksGo_le :
    ∀ (l : List Int) (today prev : Int) (temp best cur : Nat),
      cur ≤ max best temp →
      (streaksGo today prev temp best cur l).1 ≤ (streaksGo today prev temp best cur l).2 := by
  intro l
  induction l with
  | nil =>
      intro today prev temp best cur h
      exact h
  | cons d rest ih =>
      intro today prev temp best cur h
      simp only [streaksGo]
      apply ih
      by_cases h1 : d - prev = 1
      · simp only [h1, if_true]
        by_cases h2 : today - d ≤ 1
        · simp only [h2, if_true]
          exact le_max_right _ _
        · simp only [h2, if_false]
          exact le_trans h (max_le_max_left _ (Nat.le_succ temp))
      · simp only [h1, if_false]
        by_cases h2 : today - d ≤ 1
        · simp only [h2, if_true]
          exact le_max_right _ _
        · simp only [h2, if_false]
          exact le_trans h (le_max_left _ _)

/-- The spec scenario of three records solved on 2024-01-01, 2024-01-02 and
2024-01-03 (all other fields default). -/
def scenarioThree : List Problem :=
  [{ difficulty := "Easy", date_solved := "2024-01-01" },
   { difficulty := "Medium", date_solved := "2024-01-02" },
   { difficulty := "Hard", date_solved := "2024-01-03" }]

/-- C5 (amended): for every input and every today,
`current_streak ≤ longest_streak` (both are naturals, hence nonnegative);
and on the three-day scenario `longest_streak = 3` while `current_streak`
is 3 exactly when today is on or before 2024-01-04 — that is, also for any
today before the records, not only for 2024-01-03 and 2024-01-04 — and 0
otherwise. -/
theorem claim_C5_amended :
    (∀ (today : Int) (problems : List Problem),
       (calculateStreaks today problems).1 ≤ (calculateStreaks today problems).2) ∧
    (∀ today : Int,
       calculateStreaks today scenarioThree =
         ((if today ≤ toRD ⟨2024, 1, 4⟩ then 3 else 0), 3)) := by
  constructor
  · intro today problems
    simp only [calculateStreaks]
    by_cases hd : (datesOf problems).isEmpty = true
    · simp [hd]
    · simp only [hd, if_false]
      by_cases hr : (rdsOf (datesOf problems)).isEmpty = true
      · simp [hr]
      · simp only [hr, if_false]
        cases hsort : sortByLe (fun a b => decide (a ≤ b)) (rdsOf (datesOf problems)) with
        | nil => simp
        | cons d rest =>
            apply streaksGo_le
            by_cases h2 : today - d ≤ 1
            · simp only [h2, if_true]
              exact le_max_right _ _
            · simp only [h2, if_false]
              exact Nat.zero_le _
  · intro today
    have h1 : datesOf scenarioThree = ["2024-01-01", "2024-01-02", "2024-01-03"] := by decide
    have h2 : rdsOf ["2024-01-01", "2024-01-02", "2024-01-03"] = [19723, 19724, 19725] := by
      decide
    have h3 : sortByLe (fun a b => a ≤ b) ([19723, 19724, 19725] : List Int) =
        [19723, 19724, 19725] := by decide
    have h4 : toRD ⟨2024, 1, 4⟩ = (19726 : Int) := by decide
    simp only [calculateStreaks, h1, h2, h3, h4, List.isEmpty_cons, streaksGo]
    norm_num
    split_ifs <;> first | rfl | omega

/-- C5 counterexample: with today = 2024-01-01 — a day that is neither
2024-01-03 nor 2024-01-04 — the three-day scenario still yields
`current_streak = 3`, where the claim asserts 0. -/
theorem claim_C5_counterexample :
    (calculateStreaks (toRD ⟨2024, 1, 1⟩) scenarioThree).1 = 3 ∧
    toRD ⟨2024, 1, 1⟩ ≠ toRD ⟨2024, 1, 3⟩ ∧ toRD ⟨2024, 1, 1⟩ ≠ toRD ⟨2024, 1, 4⟩ := by
  refine ⟨by decide, by decide, by decide⟩

/-- Records dated 2024-01-01, 2024-01-02, 2024-01-02, 2024-01-03: the claim
expects a duplicate date not to break the run (longest 3), but the code's
loop resets the running streak on a zero-day difference. -/
def scenarioDup : List Problem :=
  [{ date_solved := "2024-01-01" }, { date_solved := "2024-01-02" },
   { date_solved := "2024-01-02" }, { date_solved := "2024-01-03" }]

/-- C6 counterexample: the four records dated 2024-01-01, 2024-01-02,
2024-01-02, 2024-01-03 yield `longest_streak = 2`, not the 3 the claim
asserts. -/
theorem claim_C6_counterexample :
    (calculateStreaks (toRD ⟨2024, 1, 3⟩) scenarioDup).2 = 2 ∧ (2 : Nat) ≠ 3 := by
  refine ⟨by decide, by decide⟩

/-! ## Longest streak as the longest consecutive segment (C6) -/

/-- Length of the run of calendar-consecutive days at the head of a list. -/
def headRun : List Int → Nat
  | [] => 0
  | [_] => 1
  | a :: b :: t => if b = a + 1 then headRun (b :: t) + 1 else 1

/-- The streak bookkeeping of the loop, isolated from `best`: the maximum
run length reachable when the current run has length `temp` and ends at
`prev`. -/
def runSplit (prev : Int) (temp : Nat) : List Int → Nat
  | [] => temp
  | d :: rest => if d = prev + 1 then runSplit d (temp + 1) rest else max temp (runSplit d 1 rest)

theorem streaksGo_snd :
    ∀ (l : List Int) (today prev : Int) (temp best cur : Nat),
      (streaksGo today prev temp best cur l).2 = max best (runSplit prev temp l) := by
  intro l
  induction l with
  | nil =>
      intro today prev temp best cur
      rfl
  | cons d rest ih =>
      intro today prev temp best cur
      simp only [streaksGo, runSplit]
      by_cases h1 : d - prev = 1
      · have hd : d = prev + 1 := by omega
        rw [if_pos h1, if_pos hd, ih]
      · have hd : ¬ d = prev + 1 := by omega
        rw [if_neg h1, if_neg hd, ih]
        exact Nat.max_assoc _ _ _

theorem maxNat_append (a b : List Nat) : maxNat (a ++ b) = max (maxNat a) (maxNat b) := by
  induction a with
  | nil => simp [maxNat]
  | cons x t ih =>
      simp only [maxNat, List.cons_append, List.foldr_cons] at ih ⊢
      rw [ih, Nat.max_assoc]

theorem maxNat_map_succ (l : List Nat) (h : l ≠ []) :
    maxNat (l.map (fun n => n + 1)) = maxNat l + 1 := by
  induction l with
  | nil => exact absurd rfl h
  | cons x t ih =>
      cases t with
      | nil => simp [maxNat]
      | cons y u =>
          simp only [List.map_cons, maxNat, List.foldr_cons] at ih ⊢
          rw [show List.foldr max 0 (List.map (fun n => n + 1) u) = maxNat (List.map (fun n => n + 1) u) from rfl] at ih ⊢
          rw [ih (by simp)]
          omega

theorem chainB_cons_prefix (a b : Int) (p : List Int) (hb : b = a + 1) (hp : p = [] ∨ ∃ q, p = b :: q) :
    chainB (a :: p) = chainB p := by
  rcases hp with rfl | ⟨q, rfl⟩
  · rfl
  · simp only [chainB, hb]
    simp

theorem inits_mem_shape {α : Type} (b : α) (t : List α) (p : List α)
    (hp : p ∈ (b :: t).inits) : p = [] ∨ ∃ q, p = b :: q ∧ q ∈ t.inits := by
  rw [List.mem_inits] at hp
  rcases hp with ⟨r, hr⟩
  cases p with
  | nil => exact Or.inl rfl
  | cons x q =>
      rw [List.cons_append] at hr
      injection hr with h1 h2
      subst h1
      exact Or.inr ⟨q, rfl, by rw [List.mem_inits]; exact ⟨r, h2⟩⟩

theorem initsMax : ∀ L : List Int, maxNat (((List.inits L).filter chainB).map List.length) = headRun L := by
  intro L
  induction L with
  | nil => simp [maxNat, headRun, List.inits, chainB]
  | cons a M ih =>
      rw [List.inits_cons]
      cases M with
      | nil => simp [maxNat, headRun, List.inits, chainB]
      | cons b t =>
          by_cases hb : b = a + 1
          · have hfilter :
                ((b :: t).inits.map (List.cons a)).filter chainB =
                  (((b :: t).inits.filter chainB).map (List.cons a)) := by
              rw [List.filter_map]
              congr 1
              apply List.filter_congr
              intro p hp
              simp only [Function.comp_apply]
              exact chainB_cons_prefix a b p hb
                ((inits_mem_shape b t p hp).imp id (fun ⟨q, hq, _⟩ => ⟨q, hq⟩))
            rw [List.filter_cons]
            simp only [show chainB [] = true from rfl, if_true]
            rw [List.map_cons, hfilter, List.map_map]
            have hlen : ((b :: t).inits.filter chainB).map (List.length ∘ List.cons a) =
                (((b :: t).inits.filter chainB).map List.length).map (fun n => n + 1) := by
              rw [List.map_map]
              apply List.map_congr_left
              intro p _
              simp [Nat.add_comm]
            rw [hlen]
            have hne : ((b :: t).inits.filter chainB).map List.length ≠ [] := by
              have : ([] : List Int) ∈ (b :: t).inits.filter chainB := by
                rw [List.mem_filter]
                exact ⟨by simp [List.mem_inits], rfl⟩
              intro hcon
              rw [List.map_eq_nil_iff] at hcon
              rw [hcon] at this
              exact absurd this (List.not_mem_nil _)
            show maxNat ([0] ++ (((b :: t).inits.filter chainB).map List.length).map (fun n => n + 1)) = _
            rw [maxNat_append, maxNat_map_succ _ hne, ih]
            simp only [headRun, hb, if_true]
            simp [maxNat]
          · have hfilter :
                ((b :: t).inits.map (List.cons a)).filter chainB =
                  ((b :: t).inits.filter (fun p => p.isEmpty)).map (List.cons a) := by
              rw [List.filter_map]
              congr 1
              apply List.filter_congr
              intro p hp
              rcases inits_mem_shape b t p hp with rfl | ⟨q, rfl, _⟩
              · rfl
              · simp only [Function.comp_apply, chainB, List.isEmpty_cons]
                simp [hb]
            rw [List.filter_cons]
            simp only [show chainB [] = true from rfl, if_true]
            rw [List.map_cons, hfilter]
            have hempty : (b :: t).inits.filter (fun p => p.isEmpty) = [[]] := by
              cases t with
              | nil => simp [List.inits]
              | cons c u =>
                  rw [List.inits_cons, List.filter_cons]
                  simp only [List.isEmpty_nil, if_true]
                  rw [List.filter_map]
                  have : ((c :: u).inits.filter (List.isEmpty ∘ List.cons b)) = [] := by
                    apply List.filter_eq_nil_iff.mpr
                    intro p _
                    simp
                  rw [this]
                  rfl
            rw [hempty]
            simp only [headRun, hb, if_false]
            simp [maxNat]

theorem maxChainLen_nil : maxChainLen [] = 0 := by decide

theorem maxChainLen_cons (x : Int) (l : List Int) :
    maxChainLen (x :: l) = max (headRun (x :: l)) (maxChainLen l) := by
  unfold maxChainLen segmentsOf
  rw [List.tails_cons, List.flatMap_cons, List.filter_append, List.map_append, maxNat_append,
    initsMax]

theorem headRun_pos : ∀ (x : Int) (l : List Int), 1 ≤ headRun (x :: l) := by
  intro x l
  cases l with
  | nil => exact le_refl 1
  | cons y t =>
      simp only [headRun]
      split
      · omega
      · exact le_refl 1

theorem headRun_le_maxChainLen (x : Int) (l : List Int) :
    headRun (x :: l) ≤ maxChainLen (x :: l) := by
  rw [maxChainLen_cons]
  exact le_max_left _ _

theorem runSplit_spec :
    ∀ (l : List Int) (prev : Int) (temp : Nat), 1 ≤ temp →
      runSplit prev temp l = max (temp - 1 + headRun (prev :: l)) (maxChainLen (prev :: l)) := by
  intro l
  induction l with
  | nil =>
      intro prev temp htemp
      simp only [runSplit, headRun, maxChainLen_cons, maxChainLen_nil]
      omega
  | cons e t ih =>
      intro prev temp htemp
      simp only [runSplit]
      by_cases he : e = prev + 1
      · rw [if_pos he, ih e (temp + 1) (by omega)]
        have h1 : headRun (prev :: e :: t) = headRun (e :: t) + 1 := by
          simp only [headRun, if_pos he]
        rw [maxChainLen_cons prev (e :: t), h1]
        have h3 := headRun_le_maxChainLen e t
        omega
      · rw [if_neg he, ih e 1 (le_refl 1)]
        have h1 : headRun (prev :: e :: t) = 1 := by
          simp only [headRun, if_neg he]
        rw [maxChainLen_cons prev (e :: t), h1]
        have h3 := headRun_le_maxChainLen e t
        have h4 := headRun_pos e t
        omega

/-- C6 (amended): `longest_streak` equals the length of the longest
contiguous run of strictly calendar-consecutive entries of the date-sorted
record-date sequence with duplicates retained — a duplicate date resets the
run rather than being skipped, so the example records dated 2024-01-01,
2024-01-02, 2024-01-02, 2024-01-03 yield a longest streak of 2, not 3. -/
theorem claim_C6_amended :
    ∀ (today : Int) (problems : List Problem),
      (calculateStreaks today problems).2 =
        maxChainLen (sortByLe (fun a b => a ≤ b) (rdsOf (datesOf problems))) := by
  intro today problems
  by_cases hd : (datesOf problems).isEmpty = true
  · rw [List.isEmpty_iff] at hd
    simp [calculateStreaks, hd, rdsOf, sortByLe, maxChainLen_nil]
  · by_cases hr : (rdsOf (datesOf problems)).isEmpty = true
    · rw [List.isEmpty_iff] at hr
      simp [calculateStreaks, hd, hr, sortByLe, maxChainLen_nil]
    · simp only [calculateStreaks]
      rw [if_neg hd, if_neg hr]
      cases hsort : sortByLe (fun a b => decide (a ≤ b)) (rdsOf (datesOf problems)) with
      | nil => simp [maxChainLen_nil]
      | cons d rest =>
          show (streaksGo today d 1 0 (if today - d ≤ 1 then 1 else 0) rest).2 = _
          rw [streaksGo_snd, runSplit_spec rest d 1 (le_refl 1)]
          have h3 := headRun_le_maxChainLen d rest
          omega

/-! ## Complexity trend (C8) -/

/-- Mean difficulty score of a list of records, as an exact rational. -/
def avgScore (l : List Problem) : ℚ :=
  ((l.map difficultyScore).sum : ℚ) / (l.length : ℚ)

/-- Twelve records: six Easy followed by six Hard. -/
def scenarioTwelve : List Problem :=
  List.replicate 6 { difficulty := "Easy" } ++ List.replicate 6 { difficulty := "Hard" }

/-- C8: fewer than ten records report "Insufficient data"; otherwise the
list splits at the integer midpoint (the second half keeping the extra
record on odd counts) and the mean scores of the halves (easy 1, medium 2,
hard 3, other 0) are compared against a 0.2 margin, choosing the
Improving / Focusing / Consistent messages; six Easy records followed by
six Hard ones classify as Improving. -/
theorem claim_C8_complexity_trend :
    (∀ ps : List Problem, ps.length < 10 → complexityTrend ps = "Insufficient data") ∧
    (∀ ps : List Problem, 10 ≤ ps.length →
       (ps.take (ps.length / 2)).length = ps.length / 2 ∧
       (ps.drop (ps.length / 2)).length = ps.length - ps.length / 2 ∧
       ps.length / 2 ≤ ps.length - ps.length / 2 ∧
       ps.length - ps.length / 2 ≤ ps.length / 2 + 1 ∧
       (avgScore (ps.drop (ps.length / 2)) > avgScore (ps.take (ps.length / 2)) + 1/5 →
          complexityTrend ps = "Improving - solving harder problems") ∧
       (avgScore (ps.drop (ps.length / 2)) < avgScore (ps.take (ps.length / 2)) - 1/5 →
          complexityTrend ps = "Focusing on easier problems") ∧
       (¬ avgScore (ps.drop (ps.length / 2)) > avgScore (ps.take (ps.length / 2)) + 1/5 →
        ¬ avgScore (ps.drop (ps.length / 2)) < avgScore (ps.take (ps.length / 2)) - 1/5 →
          complexityTrend ps = "Consistent difficulty level")) ∧
    complexityTrend scenarioTwelve = "Improving - solving harder problems" := by
  refine ⟨?_, ?_, ?_⟩
  · intro ps h
    simp only [complexityTrend]
    rw [if_pos h]
  · intro ps h
    have hnot : ¬ ps.length < 10 := by omega
    refine ⟨by simp [List.length_take]; omega, by simp [List.length_drop], by omega, by omega,
      ?_, ?_, ?_⟩
    · intro hgt
      unfold avgScore at hgt
      simp only [complexityTrend]
      rw [if_neg hnot, if_pos hgt]
    · intro hlt
      unfold avgScore at hlt
      have hnotgt :
          ¬ ((((ps.drop (ps.length / 2)).map difficultyScore).sum : ℚ) /
              ((ps.drop (ps.length / 2)).length : ℚ) >
            (((ps.take (ps.length / 2)).map difficultyScore).sum : ℚ) /
              ((ps.take (ps.length / 2)).length : ℚ) + 1/5) := by
        by_contra hc
        linarith [hlt, hc]
      simp only [complexityTrend]
      rw [if_neg hnot, if_neg hnotgt, if_pos hlt]
    · intro h1 h2
      unfold avgScore at h1 h2
      simp only [complexityTrend]
      rw [if_neg hnot, if_neg h1, if_neg h2]
  · have hs1 : ((scenarioTwelve.take (scenarioTwelve.length / 2)).map difficultyScore).sum = 6 := by
      decide
    have hs2 : ((scenarioTwelve.drop (scenarioTwelve.length / 2)).map difficultyScore).sum = 18 := by
      decide
    have hl1 : (scenarioTwelve.take (scenarioTwelve.length / 2)).length = 6 := by decide
    have hl2 : (scenarioTwelve.drop (scenarioTwelve.length / 2)).length = 6 := by decide
    simp only [complexityTrend]
    rw [if_neg (by decide), hs1, hs2, hl1, hl2]
    rw [if_pos (by norm_num)]

theorem claim_C8_witness :
    complexityTrend [{ difficulty := "Easy" }] = "Insufficient data" :=
  claim_C8_complexity_trend.1 [{ difficulty := "Easy" }] (by decide)

/-! ## Facts about the modelled case functions -/

theorem charToNat_inj {c d : Char} (h : c.toNat = d.toNat) : c = d :=
  Char.ext (UInt32.ext h)

theorem charOfNat_toNat {n : Nat} (h : n < 55296) : (Char.ofNat n).toNat = n := by
  unfold Char.ofNat
  rw [dif_pos (Or.inl (by omega))]
  rfl

theorem char_toNat_lt (c : Char) : c.toNat < 1114112 := by
  have h := c.valid
  rcases h with h | ⟨h1, h2⟩
  · have : c.toNat < 55296 := h
    omega
  · exact h2

theorem asciiLower_toNat (c : Char) :
    (asciiLower c).toNat = if 65 ≤ c.toNat ∧ c.toNat ≤ 90 then c.toNat + 32 else c.toNat := by
  unfold asciiLower
  split
  · next h => exact charOfNat_toNat (by omega)
  · rfl

theorem asciiUpper_toNat (c : Char) :
    (asciiUpper c).toNat = if 97 ≤ c.toNat ∧ c.toNat ≤ 122 then c.toNat - 32 else c.toNat := by
  unfold asciiUpper
  split
  · next h => exact charOfNat_toNat (by omega)
  · rfl

theorem asciiLower_asciiUpper (c : Char) : asciiLower (asciiUpper c) = asciiLower c := by
  apply charToNat_inj
  rw [asciiLower_toNat, asciiLower_toNat, asciiUpper_toNat]
  split_ifs <;> omega

theorem asciiLower_asciiLower (c : Char) : asciiLower (asciiLower c) = asciiLower c := by
  apply charToNat_inj
  rw [asciiLower_toNat, asciiLower_toNat]
  split_ifs <;> omega

theorem asciiLower_inv {c d : Char} (h : asciiLower c = d) : c = d ∨ c = asciiUpper d := by
  by_cases hc : 65 ≤ c.toNat ∧ c.toNat ≤ 90
  · right
    apply charToNat_inj
    have hd : d.toNat = c.toNat + 32 := by
      rw [← h, asciiLower_toNat, if_pos hc]
    rw [asciiUpper_toNat, hd, if_pos (by omega)]
    omega
  · left
    unfold asciiLower at h
    rw [if_neg hc] at h
    exact h

theorem titleGo_lower : ∀ (cs : List Char) (b : Bool),
    (titleGo b cs).map asciiLower = cs.map asciiLower := by
  intro cs
  induction cs with
  | nil => intro b; rfl
  | cons c t ih =>
      intro b
      simp only [titleGo, List.map_cons, ih]
      congr 1
      split_ifs with h1 h2
      · exact asciiLower_asciiLower c
      · exact asciiLower_asciiUpper c
      · rfl

theorem pyLower_pyTitle (s : String) : pyLower (pyTitle s) = pyLower s := by
  unfold pyLower pyTitle
  exact congrArg String.mk (titleGo_lower s.data false)

theorem data_four {s : String} {a b c d : Char}
    (h : s.data.map asciiLower = [a, b, c, d]) :
    ∃ c1 c2 c3 c4, s.data = [c1, c2, c3, c4] ∧ asciiLower c1 = a ∧ asciiLower c2 = b ∧
      asciiLower c3 = c ∧ asciiLower c4 = d := by
  rcases hd : s.data with _ | ⟨x1, _ | ⟨x2, _ | ⟨x3, _ | ⟨x4, _ | ⟨x5, r⟩⟩⟩⟩⟩ <;>
    rw [hd] at h <;>
    simp only [List.map_cons, List.map_nil, List.cons.injEq] at h <;>
    first
      | exact ⟨x1, x2, x3, x4, rfl, h.1, h.2.1, h.2.2.1, h.2.2.2.1⟩
      | exact List.noConfusion h
      | exact List.noConfusion h.2
      | exact List.noConfusion h.2.2
      | exact List.noConfusion h.2.2.2
      | exact List.noConfusion h.2.2.2.2

theorem lower_opts {c : Char} {d : Char} (h : asciiLower c = d) :
    c = d ∨ c = asciiUpper d := asciiLower_inv h

theorem pyTitle_easy {s : String} (h : pyLower s = "easy") : pyTitle s = "Easy" := by
  have hd : s.data.map asciiLower = "easy".data := congrArg String.data h
  obtain ⟨c1, c2, c3, c4, hs, h1, h2, h3, h4⟩ := data_four hd
  obtain ⟨data⟩ := s
  replace hs : data = [c1, c2, c3, c4] := hs
  subst hs
  rcases lower_opts h1 with rfl | rfl <;> rcases lower_opts h2 with rfl | rfl <;>
    rcases lower_opts h3 with rfl | rfl <;> rcases lower_opts h4 with rfl | rfl <;> decide

theorem pyTitle_hard {s : String} (h : pyLower s = "hard") : pyTitle s = "Hard" := by
  have hd : s.data.map asciiLower = "hard".data := congrArg String.data h
  obtain ⟨c1, c2, c3, c4, hs, h1, h2, h3, h4⟩ := data_four hd
  obtain ⟨data⟩ := s
  replace hs : data = [c1, c2, c3, c4] := hs
  subst hs
  rcases lower_opts h1 with rfl | rfl <;> rcases lower_opts h2 with rfl | rfl <;>
    rcases lower_opts h3 with rfl | rfl <;> rcases lower_opts h4 with rfl | rfl <;> decide

theorem data_six {s : String} {a b c d e f : Char}
    (h : s.data.map asciiLower = [a, b, c, d, e, f]) :
    ∃ c1 c2 c3 c4 c5 c6, s.data = [c1, c2, c3, c4, c5, c6] ∧ asciiLower c1 = a ∧
      asciiLower c2 = b ∧ asciiLower c3 = c ∧ asciiLower c4 = d ∧ asciiLower c5 = e ∧
      asciiLower c6 = f := by
  rcases hd : s.data with _ | ⟨x1, _ | ⟨x2, _ | ⟨x3, _ | ⟨x4, _ | ⟨x5, _ | ⟨x6, _ | ⟨x7, r⟩⟩⟩⟩⟩⟩⟩ <;>
    rw [hd] at h <;>
    simp only [List.map_cons, List.map_nil, List.cons.injEq] at h <;>
    first
      | exact ⟨x1, x2, x3, x4, x5, x6, rfl, h.1, h.2.1, h.2.2.1, h.2.2.2.1, h.2.2.2.2.1,
          h.2.2.2.2.2.1⟩
      | exact List.noConfusion h
      | exact List.noConfusion h.2
      | exact List.noConfusion h.2.2
      | exact List.noConfusion h.2.2.2
      | exact List.noConfusion h.2.2.2.2
      | exact List.noConfusion h.2.2.2.2.2
      | exact List.noConfusion h.2.2.2.2.2.2

theorem pyTitle_medium {s : String} (h : pyLower s = "medium") : pyTitle s = "Medium" := by
  have hd : s.data.map asciiLower = "medium".data := congrArg String.data h
  obtain ⟨c1, c2, c3, c4, c5, c6, hs, h1, h2, h3, h4, h5, h6⟩ := data_six hd
  obtain ⟨data⟩ := s
  replace hs : data = [c1, c2, c3, c4, c5, c6] := hs
  subst hs
  rcases lower_opts h1 with rfl | rfl <;> rcases lower_opts h2 with rfl | rfl <;>
    rcases lower_opts h3 with rfl | rfl <;> rcases lower_opts h4 with rfl | rfl <;>
    rcases lower_opts h5 with rfl | rfl <;> rcases lower_opts h6 with rfl | rfl <;> decide

theorem parseDate_empty : parseDate "" = Option.none := by decide

theorem fixDate_keeps (c : CleanProblem) :
    (fixDate c).title = c.title ∧ (fixDate c).difficulty = c.difficulty ∧
    (fixDate c).acceptance_rate = c.acceptance_rate ∧ (fixDate c).attempts = c.attempts := by
  unfold fixDate
  split
  · split <;> exact ⟨rfl, rfl, rfl, rfl⟩
  · exact ⟨rfl, rfl, rfl, rfl⟩

theorem fixDifficulty_keeps (c : CleanProblem) :
    (fixDifficulty c).title = c.title ∧ (fixDifficulty c).date_solved = c.date_solved ∧
    (fixDifficulty c).acceptance_rate = c.acceptance_rate ∧
    (fixDifficulty c).attempts = c.attempts := by
  unfold fixDifficulty
  split <;> exact ⟨rfl, rfl, rfl, rfl⟩

theorem fixDate_date (c : CleanProblem) :
    (parseDate c.date_solved = Option.none → (fixDate c).date_solved = "") ∧
    ((parseDate c.date_solved).isSome = true → (fixDate c).date_solved = c.date_solved) := by
  unfold fixDate
  by_cases h0 : c.date_solved ≠ ""
  · rw [if_pos h0]
    cases hp : parseDate c.date_solved with
    | none => exact ⟨fun _ => rfl, fun hs => absurd hs (by simp)⟩
    | some d => exact ⟨fun hn => Option.noConfusion hn, fun _ => rfl⟩
  · rw [if_neg h0]
    push_neg at h0
    exact ⟨fun _ => h0, fun _ => rfl⟩

theorem fixDifficulty_enum (c : CleanProblem) :
    ((pyLower c.difficulty = "easy" ∨ pyLower c.difficulty = "medium" ∨
        pyLower c.difficulty = "hard") → (fixDifficulty c).difficulty = c.difficulty) ∧
    (¬ (pyLower c.difficulty = "easy" ∨ pyLower c.difficulty = "medium" ∨
        pyLower c.difficulty = "hard") → (fixDifficulty c).difficulty = "Unknown") := by
  unfold fixDifficulty
  by_cases h : (pyLower c.difficulty = "easy" ∨ pyLower c.difficulty = "medium" ∨
      pyLower c.difficulty = "hard")
  · rw [if_pos h]
    exact ⟨fun _ => rfl, fun hn => absurd h hn⟩
  · rw [if_neg h]
    exact ⟨fun hp => absurd hp h, fun _ => rfl⟩

theorem cleanRecord_ok_props {p : RawProblem} {c : CleanProblem} (h : cleanRecord p = .ok c) :
    c.title = pyStrip (strPy (getD p.title (.str ""))) ∧
    (c.difficulty = "Easy" ∨ c.difficulty = "Medium" ∨ c.difficulty = "Hard" ∨
      c.difficulty = "Unknown") ∧
    (c.date_solved = "" ∨ (parseDate c.date_solved).isSome = true) ∧
    (parseDate (pyStrip (strPy (getD p.date_solved (.str "")))) = Option.none →
      c.date_solved = "") ∧
    ((parseDate (pyStrip (strPy (getD p.date_solved (.str ""))))).isSome = true →
      c.date_solved = pyStrip (strPy (getD p.date_solved (.str "")))) ∧
    (p.acceptance_rate = Option.none → c.acceptance_rate = 0) ∧
    (p.attempts = Option.none → c.attempts = 1) := by
  unfold cleanRecord at h
  split at h
  · exact Except.noConfusion h
  · split at h
    · exact Except.noConfusion h
    · rename_i war ar har watt att hatt
      have hc : c = fixDate (fixDifficulty (cleanBase p ar att)) := by
        injection h with h2
        exact h2.symm
      subst hc
      have hb : (cleanBase p ar att).difficulty =
          pyTitle (pyStrip (strPy (getD p.difficulty (.str "")))) := rfl
      have hbd : (cleanBase p ar att).date_solved =
          pyStrip (strPy (getD p.date_solved (.str ""))) := rfl
      have k1 := fixDate_keeps (fixDifficulty (cleanBase p ar att))
      have k2 := fixDifficulty_keeps (cleanBase p ar att)
      have kd := fixDate_date (fixDifficulty (cleanBase p ar att))
      have ke := fixDifficulty_enum (cleanBase p ar att)
      refine ⟨?_, ?_, ?_, ?_, ?_, ?_, ?_⟩
      · rw [k1.1, k2.1]
        rfl
      · rw [k1.2.1]
        by_cases hd : (pyLower (cleanBase p ar att).difficulty = "easy" ∨
            pyLower (cleanBase p ar att).difficulty = "medium" ∨
            pyLower (cleanBase p ar att).difficulty = "hard")
        · rw [ke.1 hd]
          rw [hb] at hd ⊢
          rw [pyLower_pyTitle] at hd
          rcases hd with hd | hd | hd
          · exact Or.inl (pyTitle_easy hd)
          · exact Or.inr (Or.inl (pyTitle_medium hd))
          · exact Or.inr (Or.inr (Or.inl (pyTitle_hard hd)))
        · exact Or.inr (Or.inr (Or.inr (ke.2 hd)))
      · cases hp : parseDate (fixDifficulty (cleanBase p ar att)).date_solved with
        | none => exact Or.inl (kd.1 hp)
        | some d =>
            right
            rw [kd.2 (by rw [hp]; rfl), hp]
            rfl
      · intro hnone
        apply kd.1
        rw [k2.2.1, hbd]
        exact hnone
      · intro hsome
        rw [kd.2 (by rw [k2.2.1, hbd]; exact hsome), k2.2.1, hbd]
      · intro hmiss
        rw [k1.2.2.1, k2.2.2.1]
        rw [hmiss] at har
        have : ar = ((0 : Int) : ℚ) := by
          have h0 : pyFloat (getD Option.none (PyVal.int 0)) = .ok ((0 : Int) : ℚ) := rfl
          rw [h0] at har
          injection har with h3
          exact h3.symm
        rw [this]
        show ((0 : Int) : ℚ) = 0
        simp
      · intro hmiss
        rw [k1.2.2.2, k2.2.2.2]
        rw [hmiss] at hatt
        have h0 : pyInt (getD Option.none (PyVal.int 1)) = .ok 1 := rfl
        rw [h0] at hatt
        injection hatt with h3
        exact h3.symm

theorem validate_ok_elim :
    ∀ (ps : List RawProblem) (out : List CleanProblem),
      validateProblemData ps = .ok out →
      out.length ≤ ps.length ∧
      (∀ r ∈ out, ∃ p ∈ ps, truthy (getD p.title (.str "")) = true ∧ cleanRecord p = .ok r) ∧
      (∀ p ∈ ps, truthy (getD p.title (.str "")) = true → ∃ c ∈ out, cleanRecord p = .ok c) := by
  intro ps
  induction ps with
  | nil =>
      intro out h
      have hout : out = [] := by
        injection h with h2
        exact h2.symm
      subst hout
      exact ⟨by simp, by simp, by simp⟩
  | cons p rest ih =>
      intro out h
      unfold validateProblemData at h
      by_cases ht : truthy (getD p.title (.str "")) = true
      · rw [if_pos ht] at h
        cases hc : cleanRecord p with
        | error e => rw [hc] at h; exact Except.noConfusion h
        | ok c =>
            rw [hc] at h
            cases hv : validateProblemData rest with
            | error e => rw [hv] at h; exact Except.noConfusion h
            | ok out2 =>
                rw [hv] at h
                have hout : out = c :: out2 := by
                  injection h with h2
                  exact h2.symm
                subst hout
                obtain ⟨ih1, ih2, ih3⟩ := ih out2 hv
                refine ⟨by simpa using Nat.succ_le_succ ih1, ?_, ?_⟩
                · intro r hr
                  rcases List.mem_cons.mp hr with rfl | hr2
                  · exact ⟨p, List.mem_cons_self _ _, ht, hc⟩
                  · obtain ⟨p2, hp2, h1, h2⟩ := ih2 r hr2
                    exact ⟨p2, List.mem_cons_of_mem _ hp2, h1, h2⟩
                · intro p2 hp2 ht2
                  rcases List.mem_cons.mp hp2 with rfl | hp3
                  · exact ⟨c, List.mem_cons_self _ _, hc⟩
                  · obtain ⟨c2, hc2, h2⟩ := ih3 p2 hp3 ht2
                    exact ⟨c2, List.mem_cons_of_mem _ hc2, h2⟩
      · rw [if_neg ht] at h
        obtain ⟨ih1, ih2, ih3⟩ := ih out h
        refine ⟨Nat.le_succ_of_le ih1, ?_, ?_⟩
        · intro r hr
          obtain ⟨p2, hp2, h1, h2⟩ := ih2 r hr
          exact ⟨p2, List.mem_cons_of_mem _ hp2, h1, h2⟩
        · intro p2 hp2 ht2
          rcases List.mem_cons.mp hp2 with rfl | hp3
          · exact absurd ht2 ht
          · exact ih3 p2 hp3 ht2

/-- C1 counterexample: a record whose title is the one-space string " "
passes the truthiness check, is kept, and is emitted with an empty title —
refuting the claim that every returned record has a non-empty title. -/
theorem claim_C1_counterexample :
    (validateProblemData [{ title := some (.str " ") }]).map
        (List.map (fun c : CleanProblem => c.title)) = .ok [""] := by
  rfl

/-- C1 (amended): when `validate_problem_data` returns, the output is at
most as long as the input; every returned record's title is the stripped
string of a truthy input title (so it can be empty exactly when the input
title was whitespace-only); every returned difficulty is one of Easy,
Medium, Hard, Unknown; and every titled input record is kept, with
`date_solved` cleared to the empty string when the stripped date does not
parse as YYYY-MM-DD, and kept verbatim when it does. -/
theorem claim_C1_amended :
    ∀ (ps : List RawProblem) (out : List CleanProblem),
      validateProblemData ps = .ok out →
      out.length ≤ ps.length ∧
      (∀ r ∈ out, ∃ p ∈ ps, truthy (getD p.title (.str "")) = true ∧
         r.title = pyStrip (strPy (getD p.title (.str "")))) ∧
      (∀ r ∈ out, r.difficulty = "Easy" ∨ r.difficulty = "Medium" ∨ r.difficulty = "Hard" ∨
         r.difficulty = "Unknown") ∧
      (∀ p ∈ ps, truthy (getD p.title (.str "")) = true →
         ∃ c ∈ out,
           (parseDate (pyStrip (strPy (getD p.date_solved (.str "")))) = Option.none →
              c.date_solved = "") ∧
           ((parseDate (pyStrip (strPy (getD p.date_solved (.str ""))))).isSome = true →
              c.date_solved = pyStrip (strPy (getD p.date_solved (.str ""))))) := by
  intro ps out h
  obtain ⟨h1, h2, h3⟩ := validate_ok_elim ps out h
  refine ⟨h1, ?_, ?_, ?_⟩
  · intro r hr
    obtain ⟨p, hp, htr, hcr⟩ := h2 r hr
    exact ⟨p, hp, htr, (cleanRecord_ok_props hcr).1⟩
  · intro r hr
    obtain ⟨p, _, _, hcr⟩ := h2 r hr
    exact (cleanRecord_ok_props hcr).2.1
  · intro p hp htr
    obtain ⟨c, hcout, hcr⟩ := h3 p hp htr
    exact ⟨c, hcout, (cleanRecord_ok_props hcr).2.2.2.1, (cleanRecord_ok_props hcr).2.2.2.2.1⟩

theorem claim_C1_witness :
    ∃ out, validateProblemData
        [{ title := some (.str "Two Sum"), date_solved := some (.str "bad-date") }] = .ok out ∧
      out.length ≤ 1 := by
  have h : validateProblemData
      [{ title := some (.str "Two Sum"), date_solved := some (.str "bad-date") }] =
      .ok ((validateProblemData
        [{ title := some (.str "Two Sum"),
           date_solved := some (.str "bad-date") }]).toOption.getD []) := rfl
  exact ⟨_, h, (claim_C1_amended _ _ h).1⟩

/-- Does a raw record have coercible numeric fields (so that the `float`
and `int` calls of the loop body cannot raise)? -/
def recNumericOk (p : RawProblem) : Prop :=
  (pyFloat (getD p.acceptance_rate (.int 0))).isOk = true ∧
  (pyInt (getD p.attempts (.int 1))).isOk = true

instance (p : RawProblem) : Decidable (recNumericOk p) := by
  unfold recNumericOk
  infer_instance

theorem cleanRecord_isOk {p : RawProblem} (h : recNumericOk p) :
    ∃ c, cleanRecord p = .ok c := by
  obtain ⟨h1, h2⟩ := h
  unfold cleanRecord
  cases hf : pyFloat (getD p.acceptance_rate (.int 0)) with
  | error e => rw [hf] at h1; exact absurd h1 (by simp [Except.isOk, Except.toBool])
  | ok ar =>
      cases hi : pyInt (getD p.attempts (.int 1)) with
      | error e => rw [hi] at h2; exact absurd h2 (by simp [Except.isOk, Except.toBool])
      | ok att =>
          exact ⟨_, rfl⟩

/-- C2 counterexample: a titled record whose `acceptance_rate` is the
string "abc" makes the whole call raise `ValueError` (modelled as
`Except.error`), and a titled record with no `attempts` key is emitted
with `attempts = 1`, not 0. -/
theorem claim_C2_counterexample :
    validateProblemData [{ title := some (.str "x"), acceptance_rate := some (.str "abc") }] =
      .error "could not convert string to float" ∧
    (validateProblemData [{ title := some (.str "x") }]).map
        (List.map (fun c : CleanProblem => c.attempts)) = .ok [1] ∧
    (1 : Int) ≠ 0 := by
  refine ⟨rfl, rfl, by decide⟩

/-- C2 (amended): when every record's `acceptance_rate` and `attempts`
fields (with their defaults 0 and 1) are coercible, `validate_problem_data`
returns normally; a missing `acceptance_rate` defaults to 0 and a missing
`attempts` defaults to 1; and every emitted record has a repaired
`date_solved` (empty or parseable) and a repaired difficulty (one of the
four enum values). -/
theorem claim_C2_amended :
    (∀ ps : List RawProblem, (∀ p ∈ ps, recNumericOk p) →
       ∃ out, validateProblemData ps = .ok out) ∧
    (∀ (p : RawProblem) (c : CleanProblem), cleanRecord p = .ok c →
       (p.acceptance_rate = Option.none → c.acceptance_rate = 0) ∧
       (p.attempts = Option.none → c.attempts = 1) ∧
       (c.date_solved = "" ∨ (parseDate c.date_solved).isSome = true) ∧
       (c.difficulty = "Easy" ∨ c.difficulty = "Medium" ∨ c.difficulty = "Hard" ∨
         c.difficulty = "Unknown")) := by
  constructor
  · intro ps h
    induction ps with
    | nil => exact ⟨[], rfl⟩
    | cons p rest ih =>
        obtain ⟨out2, hout2⟩ := ih (fun q hq => h q (List.mem_cons_of_mem _ hq))
        by_cases ht : truthy (getD p.title (.str "")) = true
        · obtain ⟨c, hc⟩ := cleanRecord_isOk (h p (List.mem_cons_self _ _))
          refine ⟨c :: out2, ?_⟩
          unfold validateProblemData
          rw [if_pos ht, hc, hout2]
        · refine ⟨out2, ?_⟩
          unfold validateProblemData
          rw [if_neg ht]
          exact hout2
  · intro p c hc
    have hp := cleanRecord_ok_props hc
    exact ⟨hp.2.2.2.2.2.1, hp.2.2.2.2.2.2, hp.2.2.1, hp.2.1⟩

theorem claim_C2_witness :
    ∃ out, validateProblemData
        [{ title := some (.str "Two Sum"), attempts := some (.int 2) }] = .ok out :=
  claim_C2_amended.1 _ (by decide)

/-! ## Topic mapping (C4) -/

theorem setAdd_mem (s : List String) (v x : String) : x ∈ setAdd s v ↔ x ∈ s ∨ x = v := by
  unfold setAdd
  split
  · next hv => exact ⟨Or.inl, fun h => h.elim id (fun hx => hx ▸ hv)⟩
  · simp [List.mem_append]

theorem setAdd_nodup (s : List String) (v : String) (h : s.Nodup) : (setAdd s v).Nodup := by
  unfold setAdd
  split
  · exact h
  · next hv => simp [List.nodup_append, h, hv]

theorem foldSetAdd (f : String → String) :
    ∀ (ts : List String) (acc : List String), acc.Nodup →
      (ts.foldl (fun s t => setAdd s (f t)) acc).Nodup ∧
      (∀ x, x ∈ ts.foldl (fun s t => setAdd s (f t)) acc ↔ x ∈ acc ∨ ∃ t ∈ ts, f t = x) := by
  intro ts
  induction ts with
  | nil =>
      intro acc h
      exact ⟨h, fun x => by simp⟩
  | cons t ts ih =>
      intro acc h
      obtain ⟨ih1, ih2⟩ := ih (setAdd acc (f t)) (setAdd_nodup _ _ h)
      rw [List.foldl_cons]
      refine ⟨ih1, fun x => ?_⟩
      rw [ih2 x, setAdd_mem]
      constructor
      · rintro ((hx | rfl) | ⟨t2, ht2, rfl⟩)
        · exact Or.inl hx
        · exact Or.inr ⟨t, by simp, rfl⟩
        · exact Or.inr ⟨t2, by simp [ht2], rfl⟩
      · rintro (hx | ⟨t2, ht2, rfl⟩)
        · exact Or.inl (Or.inl hx)
        · rcases List.mem_cons.mp ht2 with rfl | ht3
          · exact Or.inl (Or.inr rfl)
          · exact Or.inr ⟨t2, ht3, rfl⟩

theorem find_first {α : Type} (p : α → Bool) :
    ∀ (l : List α) (i : Nat) (h : i < l.length), p (l.get ⟨i, h⟩) = true →
      (∀ (j : Nat) (hj : j < l.length), j < i → p (l.get ⟨j, hj⟩) = false) →
      l.find? p = some (l.get ⟨i, h⟩) := by
  intro l
  induction l with
  | nil =>
      intro i h
      exact absurd h (by simp)
  | cons a l ih =>
      intro i h hp hprev
      cases i with
      | zero => exact List.find?_cons_of_pos _ hp
      | succ n =>
          have ha : p a = false := hprev 0 (by simp) (by omega)
          rw [List.find?_cons_of_neg _ (by simp [ha])]
          exact ih n (by simpa using h) hp
            (fun j hj hlt => hprev (j + 1) (by simpa using hj) (by omega))

/-- C4 counterexample: with the empty mapping table, `_map_topics` returns
the input list unchanged, so duplicates are not collapsed — the result for
topics ["A", "A"] is not a set. -/
theorem claim_C4_counterexample :
    mapTopics [] ["A", "A"] = ["A", "A"] ∧ ¬ (mapTopics [] ["A", "A"]).Nodup := by
  exact ⟨rfl, by decide⟩

/-- C4 (amended): with the empty mapping table the original topic list is
returned unchanged, duplicates included; with a non-empty table each topic
is resolved — exact match first, else the first mapping entry matching by
case-insensitive substring in either direction, else the topic itself —
and the results are collected into a set (duplicates collapsed); mapping
{"DP": "Dynamic Programming"} sends ["DP"] to {"Dynamic Programming"}. -/
theorem claim_C4_amended :
    ∀ (M : List (String × String)) (ts : List String),
      (M = [] → mapTopics M ts = ts) ∧
      (M ≠ [] →
        (mapTopics M ts).Nodup ∧
        (∀ x, x ∈ mapTopics M ts ↔ ∃ t ∈ ts, resolveTopic M t = x)) ∧
      (∀ t v, keyLookup M t = some v → resolveTopic M t = v) ∧
      (∀ t, keyLookup M t = Option.none →
        ((∀ kv ∈ M, substrMatch t kv = false) → resolveTopic M t = t) ∧
        (∀ (i : Nat) (h : i < M.length), substrMatch t (M.get ⟨i, h⟩) = true →
          (∀ (j : Nat) (hj : j < M.length), j < i → substrMatch t (M.get ⟨j, hj⟩) = false) →
          resolveTopic M t = (M.get ⟨i, h⟩).2)) ∧
      mapTopics [("DP", "Dynamic Programming")] ["DP"] = ["Dynamic Programming"] := by
  intro M ts
  refine ⟨?_, ?_, ?_, ?_, by decide⟩
  · intro h
    subst h
    rfl
  · intro hM
    unfold mapTopics
    rw [if_neg (by simpa using hM)]
    obtain ⟨h1, h2⟩ := foldSetAdd (resolveTopic M) ts [] List.nodup_nil
    exact ⟨h1, fun x => by rw [h2 x]; simp⟩
  · intro t v h
    unfold resolveTopic
    rw [h]
  · intro t h
    constructor
    · intro hall
      unfold resolveTopic
      rw [h, List.find?_eq_none.mpr (fun kv hkv => by simp [hall kv hkv])]
    · intro i hi hp hprev
      unfold resolveTopic
      rw [h, find_first (substrMatch t) M i hi hp hprev]

theorem claim_C4_witness :
    resolveTopic [("DP", "Dynamic Programming")] "DP" = "Dynamic Programming" :=
  (claim_C4_amended [("DP", "Dynamic Programming")] ["DP"]).2.2.1 "DP" "Dynamic Programming"
    (by decide)

/-! ## Topic statistics (C3) -/

theorem charListLt_nil_right : ∀ l : List Char, charListLt l [] = false := by
  intro l
  cases l <;> rfl

theorem strLtB_empty_right (s : String) : strLtB s "" = false :=
  charListLt_nil_right s.data

theorem string_of_data_nil {s : String} (h : s.data = []) : s = "" := by
  cases s
  exact congrArg String.mk h

theorem strLtB_empty_left {s : String} (h : s ≠ "") : strLtB "" s = true := by
  unfold strLtB
  cases hd : s.data with
  | nil => exact absurd (string_of_data_nil hd) h
  | cons c t => rfl

theorem strMax_empty_right (a : String) : strMax a "" = a := by
  unfold strMax
  rw [strLtB_empty_right]
  simp

theorem last_update_eq_strMax (l d : String) :
    (if d ≠ "" ∧ (l = "" ∨ strLtB l d = true) then d else l) = strMax l d := by
  by_cases hd : d = ""
  · subst hd
    rw [strMax_empty_right]
    simp
  · by_cases hl : l = ""
    · subst hl
      rw [if_pos ⟨hd, Or.inl rfl⟩]
      unfold strMax
      rw [strLtB_empty_left hd]
      simp
    · unfold strMax
      by_cases hlt : strLtB l d = true
      · rw [if_pos ⟨hd, Or.inr hlt⟩, if_pos hlt]
      · rw [if_neg (by tauto), if_neg hlt]

theorem strMax_idem (a b : String) : strMax (strMax a b) b = strMax a b := by
  unfold strMax
  by_cases h : strLtB a b = true
  · rw [if_pos h, strLtB_irrefl b]
    simp
  · rw [if_neg h, if_neg h]

theorem listMaxStr_append_singleton (l : List String) (d : String) :
    listMaxStr (l ++ [d]) = strMax (listMaxStr l) d := by
  simp [listMaxStr, List.foldl_append]

theorem foldl_strMax_filter : ∀ (l : List String) (a : String),
    List.foldl strMax a l = List.foldl strMax a (l.filter (fun d => d ≠ "")) := by
  intro l
  induction l with
  | nil => intro a; rfl
  | cons d l ih =>
      intro a
      by_cases hd : d = ""
      · subst hd
        rw [List.foldl_cons, strMax_empty_right]
        rw [show List.filter (fun d => decide (d ≠ "")) ("" :: l) =
          List.filter (fun d => decide (d ≠ "")) l by simp [List.filter_cons]]
        exact ih a
      · rw [List.foldl_cons,
          show List.filter (fun d2 => decide (d2 ≠ "")) (d :: l) =
            d :: List.filter (fun d2 => decide (d2 ≠ "")) l by simp [List.filter_cons, hd],
          List.foldl_cons]
        exact ih (strMax a d)

theorem listMaxStr_filter (l : List String) :
    listMaxStr l = listMaxStr (l.filter (fun d => d ≠ "")) :=
  foldl_strMax_filter l ""

/-- Iterated application of the per-record update (a record whose mapped
topic list mentions a topic more than once updates that topic that many
times). -/
def applyN (p : Problem) : Nat → TopicStatFull → TopicStatFull
  | 0, st => st
  | n + 1, st => updateStats p (applyN p n st)

theorem applyN_comm (p : Problem) :
    ∀ (n : Nat) (st : TopicStatFull), applyN p n (updateStats p st) = updateStats p (applyN p n st) := by
  intro n
  induction n with
  | zero => intro st; rfl
  | succ n ih =>
      intro st
      show updateStats p (applyN p n (updateStats p st)) = _
      rw [ih st]
      rfl

theorem update_counts (p : Problem) (st : TopicStatFull) :
    (updateStats p st).total = st.total + 1 ∧ (updateStats p st).solved = st.solved + 1 :=
  ⟨rfl, rfl⟩

theorem update_last (p : Problem) (st : TopicStatFull) :
    (updateStats p st).last_solved = strMax st.last_solved p.date_solved := by
  show (if p.date_solved ≠ "" ∧ (st.last_solved = "" ∨ strLtB st.last_solved p.date_solved = true)
      then p.date_solved else st.last_solved) = _
  exact last_update_eq_strMax _ _

theorem applyN_counts (p : Problem) :
    ∀ (n : Nat) (st : TopicStatFull),
      (applyN p n st).total = st.total + n ∧ (applyN p n st).solved = st.solved + n := by
  intro n
  induction n with
  | zero => intro st; exact ⟨rfl, rfl⟩
  | succ n ih =>
      intro st
      constructor
      · show (updateStats p (applyN p n st)).total = _
        rw [(update_counts p _).1, (ih st).1]
        omega
      · show (updateStats p (applyN p n st)).solved = _
        rw [(update_counts p _).2, (ih st).2]
        omega

theorem applyN_last (p : Problem) :
    ∀ (n : Nat) (st : TopicStatFull), 1 ≤ n →
      (applyN p n st).last_solved = strMax st.last_solved p.date_solved := by
  intro n
  induction n with
  | zero => intro st h; omega
  | succ n ih =>
      intro st _
      rcases Nat.eq_zero_or_pos n with rfl | hn
      · exact update_last p st
      · show (updateStats p (applyN p n st)).last_solved = _
        rw [update_last, ih st hn, strMax_idem]

theorem alistFind_update :
    ∀ (d : List (String × TopicStatFull)) (k k2 : String) (p : Problem),
      alistFind (alistUpdate d k p) k2 =
        if k2 = k then some (updateStats p ((alistFind d k).getD {})) else alistFind d k2 := by
  intro d
  induction d with
  | nil =>
      intro k k2 p
      by_cases h : k2 = k
      · subst h
        simp [alistFind, alistUpdate, List.find?]
      · simp [alistFind, alistUpdate, List.find?, h, Ne.symm h]
  | cons kv rest ih =>
      intro k k2 p
      obtain ⟨k3, st⟩ := kv
      unfold alistUpdate
      by_cases h3 : k3 = k
      · subst h3
        simp only [if_pos rfl]
        by_cases h2 : k2 = k3
        · subst h2
          simp [alistFind, List.find?]
        · simp [alistFind, List.find?, h2, Ne.symm h2]
      · rw [if_neg h3]
        by_cases h2 : k2 = k3
        · subst h2
          have hk : ¬ k2 = k := fun hc => h3 (hc ▸ rfl)
          simp [alistFind, List.find?, if_neg hk]
        · have e1 : alistFind ((k3, st) :: alistUpdate rest k p) k2 =
              alistFind (alistUpdate rest k p) k2 := by
            simp [alistFind, List.find?, Ne.symm h2]
          have e2 : alistFind ((k3, st) :: rest) k2 = alistFind rest k2 := by
            simp [alistFind, List.find?, Ne.symm h2]
          have e3 : alistFind ((k3, st) :: rest) k = alistFind rest k := by
            simp [alistFind, List.find?, h3]
          rw [e1, e2, e3, ih k k2 p]

theorem innerFold_find (p : Problem) :
    ∀ (L : List String) (acc : List (String × TopicStatFull)) (t : String),
      alistFind (L.foldl (fun a t2 => alistUpdate a t2 p) acc) t =
        if t ∈ L then some (applyN p (L.count t) ((alistFind acc t).getD {}))
        else alistFind acc t := by
  intro L
  induction L with
  | nil =>
      intro acc t
      simp
  | cons x L ih =>
      intro acc t
      rw [List.foldl_cons, ih (alistUpdate acc x p) t, alistFind_update]
      by_cases hx : t = x
      · subst hx
        by_cases hL : t ∈ L
        · rw [if_pos hL, if_pos (List.mem_cons_self t L), if_pos rfl]
          rw [Option.getD_some, List.count_cons_self, applyN_comm]
          rfl
        · rw [if_neg hL, if_pos rfl, if_pos (List.mem_cons_self t L)]
          rw [List.count_cons_self, List.count_eq_zero.mpr hL]
          rfl
      · rw [if_neg hx]
        by_cases hL : t ∈ L
        · rw [if_pos hL, if_pos (List.mem_cons_of_mem x hL),
            List.count_cons_of_ne hx]
        · rw [if_neg hL, if_neg (by simp [hx, hL])]

/-- The outer fold of `categorize_by_topic` over the record list. -/
def outerFold (mapping : List (String × String)) (ps : List Problem)
    (acc : List (String × TopicStatFull)) : List (String × TopicStatFull) :=
  ps.foldl
    (fun a p => (mapTopics mapping p.topics).foldl (fun a2 t2 => alistUpdate a2 t2 p) a) acc

theorem contribDates_cons (mapping : List (String × String)) (t : String) (p : Problem)
    (ps : List Problem) :
    contribDates mapping t (p :: ps) =
      (if contributes mapping t p = true then [p.date_solved] else []) ++
        contribDates mapping t ps := by
  unfold contribDates
  rw [List.filter_cons]
  by_cases h : contributes mapping t p = true
  · rw [if_pos h, if_pos h]
    rfl
  · rw [if_neg h, if_neg h]
    rfl

theorem outerFold_good (mapping : List (String × String)) :
    ∀ (ps : List Problem) (acc : List (String × TopicStatFull)) (t : String)
      (dates : List String),
      (∀ st, alistFind acc t = some st →
          st.total = st.solved ∧ st.last_solved = listMaxStr dates) →
      (alistFind acc t = Option.none → dates = []) →
      ∀ st, alistFind (outerFold mapping ps acc) t = some st →
        st.total = st.solved ∧
        st.last_solved = listMaxStr (dates ++ contribDates mapping t ps) := by
  intro ps
  induction ps with
  | nil =>
      intro acc t dates hsome _ st hst
      have : contribDates mapping t [] = [] := rfl
      rw [this, List.append_nil]
      exact hsome st hst
  | cons p ps ih =>
      intro acc t dates hsome hnone st hst
      have hstep : outerFold mapping (p :: ps) acc =
          outerFold mapping ps
            ((mapTopics mapping p.topics).foldl (fun a2 t2 => alistUpdate a2 t2 p) acc) := rfl
      rw [hstep] at hst
      set acc2 := (mapTopics mapping p.topics).foldl (fun a2 t2 => alistUpdate a2 t2 p) acc
        with hacc2
      by_cases hc : contributes mapping t p = true
      · have hmem : t ∈ mapTopics mapping p.topics := by
          have := hc
          unfold contributes at this
          simpa using this
        have hfind : alistFind acc2 t =
            some (applyN p ((mapTopics mapping p.topics).count t)
              ((alistFind acc t).getD {})) := by
          rw [hacc2, innerFold_find, if_pos hmem]
        have hcnt : 1 ≤ (mapTopics mapping p.topics).count t := List.count_pos_iff.mpr hmem
        have hdates2 :
            ∀ st2, alistFind acc2 t = some st2 →
              st2.total = st2.solved ∧
              st2.last_solved = listMaxStr (dates ++ [p.date_solved]) := by
          intro st2 hst2
          rw [hfind] at hst2
          injection hst2 with hst2
          subst hst2
          cases hbase : alistFind acc t with
          | none =>
              have hd0 : dates = [] := hnone hbase
              subst hd0
              constructor
              · rw [(applyN_counts p _ _).1, (applyN_counts p _ _).2]
                rfl
              · rw [applyN_last p _ _ hcnt]
                show strMax "" p.date_solved = _
                rw [show listMaxStr ([] ++ [p.date_solved]) = strMax (listMaxStr []) p.date_solved
                  from listMaxStr_append_singleton [] p.date_solved]
                rfl
          | some st0 =>
              obtain ⟨h1, h2⟩ := hsome st0 hbase
              constructor
              · rw [(applyN_counts p _ _).1, (applyN_counts p _ _).2]
                show st0.total + _ = st0.solved + _
                rw [h1]
              · rw [applyN_last p _ _ hcnt]
                show strMax st0.last_solved p.date_solved = _
                rw [h2, listMaxStr_append_singleton]
        have hnone2 : alistFind acc2 t = Option.none → dates ++ [p.date_solved] = [] := by
          intro hcon
          rw [hfind] at hcon
          exact Option.noConfusion hcon
        have hres := ih acc2 t (dates ++ [p.date_solved]) hdates2 hnone2 st hst
        rw [contribDates_cons, if_pos hc, ← List.append_assoc]
        exact hres

      · have hnmem : t ∉ mapTopics mapping p.topics := by
          intro hcon
          exact hc (by unfold contributes; simpa using hcon)
        have hfind : alistFind acc2 t = alistFind acc t := by
          rw [hacc2, innerFold_find, if_neg hnmem]
        have hres := ih acc2 t dates (fun st2 hst2 => hsome st2 (hfind ▸ hst2))
          (fun hn => hnone (hfind ▸ hn)) st hst
        rw [contribDates_cons, if_neg hc, List.nil_append]
        exact hres

/-- Projection dropping the per-topic `problems` list for the final
dictionary. -/
def dropStat (st : TopicStatFull) : TopicStat :=
  { total := st.total, solved := st.solved, easy := st.easy, medium := st.medium,
    hard := st.hard, last_solved := st.last_solved }

theorem statFind_map :
    ∀ (full : List (String × TopicStatFull)) (t : String),
      statFind (full.map (fun kv => (kv.1, dropStat kv.2))) t =
        (alistFind full t).map dropStat := by
  intro full
  induction full with
  | nil => intro t; rfl
  | cons kv rest ih =>
      intro t
      obtain ⟨k, stf⟩ := kv
      by_cases h : k = t
      · subst h
        simp [statFind, alistFind, List.find?]
      · have e1 : statFind ((k, dropStat stf) :: rest.map (fun kv => (kv.1, dropStat kv.2))) t =
            statFind (rest.map (fun kv => (kv.1, dropStat kv.2))) t := by
          simp [statFind, List.find?, h]
        have e2 : alistFind ((k, stf) :: rest) t = alistFind rest t := by
          simp [alistFind, List.find?, h]
        rw [List.map_cons, e1, e2, ih t]

/-- C3: for every topic present in the mapping returned by
`categorize_by_topic`, total equals solved; all counters are non-negative
integers; and `last_solved` is the maximal date string of the contributing
records under Python string comparison — equivalently, the
lexicographically maximal non-empty date (the empty string when no
contributing record is dated), since an empty string never wins the
comparison. -/
theorem claim_C3_topic_stats :
    ∀ (mapping : List (String × String)) (problems : List Problem) (t : String)
      (st : TopicStat),
      statFind (categorizeByTopic mapping problems) t = some st →
      st.total = st.solved ∧
      (0 : Int) ≤ (st.total : Int) ∧ (0 : Int) ≤ (st.solved : Int) ∧
      (0 : Int) ≤ (st.easy : Int) ∧ (0 : Int) ≤ (st.medium : Int) ∧
      (0 : Int) ≤ (st.hard : Int) ∧
      st.last_solved = listMaxStr (contribDates mapping t problems) ∧
      st.last_solved =
        listMaxStr ((contribDates mapping t problems).filter (fun d => d ≠ "")) := by
  intro mapping ps t st h
  have hcat : categorizeByTopic mapping ps =
      (outerFold mapping ps []).map (fun kv => (kv.1, dropStat kv.2)) := rfl
  rw [hcat, statFind_map] at h
  cases hf : alistFind (outerFold mapping ps []) t with
  | none =>
      rw [hf] at h
      exact Option.noConfusion h
  | some stf =>
      rw [hf] at h
      injection h with h
      subst h
      obtain ⟨h1, h2⟩ := outerFold_good mapping ps [] t []
        (fun st0 h0 => Option.noConfusion h0) (fun _ => rfl) stf hf
      rw [List.nil_append] at h2
      refine ⟨h1, by omega, by omega, by omega, by omega, by omega, h2, ?_⟩
      rw [← listMaxStr_filter]
      exact h2

theorem claim_C3_witness :
    ({ total := 1, solved := 1, easy := 1, medium := 0, hard := 0,
       last_solved := "2024-01-01" } : TopicStat).total =
      ({ total := 1, solved := 1, easy := 1, medium := 0, hard := 0,
         last_solved := "2024-01-01" } : TopicStat).solved ∧
    ({ total := 1, solved := 1, easy := 1, medium := 0, hard := 0,
       last_solved := "2024-01-01" } : TopicStat).last_solved =
      listMaxStr (contribDates [] "A"
        [{ topics := ["A"], difficulty := "Easy", date_solved := "2024-01-01" }]) := by
  have h := claim_C3_topic_stats []
    [{ topics := ["A"], difficulty := "Easy", date_solved := "2024-01-01" }] "A"
    { total := 1, solved := 1, easy := 1, medium := 0, hard := 0,
      last_solved := "2024-01-01" } (by decide)
  exact ⟨h.1, h.2.2.2.2.2.2.1⟩

/-! ## Calendar arithmetic (towards C7) -/

theorem isLeap_iff (y : Nat) :
    isLeap y = true ↔ (y % 4 = 0 ∧ (y % 100 ≠ 0 ∨ y % 400 = 0)) := by
  simp [isLeap]

theorem daysInMonth_pos (y m : Nat) : 1 ≤ daysInMonth y m := by
  unfold daysInMonth
  split_ifs <;> omega

theorem daysInMonth_le (y m : Nat) : daysInMonth y m ≤ 31 := by
  unfold daysInMonth
  split_ifs <;> omega

theorem toRD_prevDay (dt : Date) (hok : dt.okay) (hne : dt ≠ ⟨1, 1, 1⟩) :
    (prevDay dt).okay ∧ toRD (prevDay dt) = toRD dt - 1 := by
  obtain ⟨y, m, d⟩ := dt
  unfold Date.okay at hok
  dsimp only at hok
  obtain ⟨hy1, hy2, hm1, hm2, hd1, hd2⟩ := hok
  unfold prevDay
  dsimp only
  by_cases hdd : 1 < d
  · rw [if_pos hdd]
    constructor
    · unfold Date.okay
      dsimp only
      omega
    · simp only [toRD]
      split_ifs <;> omega
  · by_cases hmm2 : 1 < m
    · rw [if_neg hdd, if_pos hmm2]
      have hd0 : d = 1 := by omega
      subst hd0
      constructor
      · unfold Date.okay
        dsimp only
        exact ⟨hy1, hy2, by omega, by omega, daysInMonth_pos _ _, le_refl _⟩
      · have hm2' : 2 ≤ m := hmm2
        interval_cases m <;>
          first
            | (simp only [toRD, daysInMonth]
               norm_num
               omega)
            | (simp only [toRD, daysInMonth]
               norm_num
               by_cases hl : isLeap y = true
               · rw [if_pos hl]
                 rw [isLeap_iff] at hl
                 omega
               · rw [if_neg hl]
                 rw [isLeap_iff] at hl
                 push_neg at hl
                 omega)
    · have hm0 : m = 1 := by omega
      have hd0 : d = 1 := by omega
      subst hm0
      subst hd0
      have hy : 2 ≤ y := by
        rcases Nat.lt_or_ge y 2 with h | h
        · have hy0 : y = 1 := by omega
          subst hy0
          exact absurd rfl hne
        · exact h
      rw [if_neg hdd, if_neg hmm2]
      constructor
      · unfold Date.okay
        dsimp only
        refine ⟨by omega, by omega, by omega, by omega, by omega, ?_⟩
        norm_num [daysInMonth]
      · simp only [toRD]
        norm_num
        omega

theorem weekdayIdx_bounds (dt : Date) : 0 ≤ weekdayIdx dt ∧ weekdayIdx dt ≤ 6 := by
  unfold weekdayIdx
  omega

theorem subDays_spec :
    ∀ (n : Nat) (dt : Date), dt.okay → (n : Int) ≤ weekdayIdx dt →
      (subDays dt n).okay ∧ toRD (subDays dt n) = toRD dt - n := by
  intro n
  induction n with
  | zero =>
      intro dt h _
      exact ⟨h, by simp [subDays]⟩
  | succ n ih =>
      intro dt hok hn
      have hn2 : (n : Int) ≤ weekdayIdx dt := by push_cast at hn ⊢; omega
      obtain ⟨hok2, hrd⟩ := ih dt hok hn2
      have hwd : weekdayIdx (subDays dt n) = weekdayIdx dt - n := by
        unfold weekdayIdx at hn ⊢
        rw [hrd]
        push_cast at hn
        omega
      have hne : subDays dt n ≠ ⟨1, 1, 1⟩ := by
        intro hc
        rw [hc, show weekdayIdx (⟨1, 1, 1⟩ : Date) = 0 from by decide] at hwd
        unfold weekdayIdx at hn hwd
        push_cast at hn
        omega
      obtain ⟨hok3, hrd3⟩ := toRD_prevDay (subDays dt n) hok2 hne
      refine ⟨hok3, ?_⟩
      show toRD (prevDay (subDays dt n)) = _
      rw [hrd3, hrd]
      push_cast
      ring

theorem weekStartDate_spec (dt : Date) (h : dt.okay) :
    (weekStartDate dt).okay ∧ toRD (weekStartDate dt) = toRD dt - weekdayIdx dt ∧
    weekdayIdx (weekStartDate dt) = 0 := by
  have hb := weekdayIdx_bounds dt
  have hcast : (((weekdayIdx dt).toNat : Nat) : Int) = weekdayIdx dt := Int.toNat_of_nonneg hb.1
  obtain ⟨h1, h2⟩ := subDays_spec (weekdayIdx dt).toNat dt h (by rw [hcast])
  rw [hcast] at h2
  refine ⟨h1, h2, ?_⟩
  show (toRD (weekStartDate dt) + 3) % 7 = 0
  rw [show toRD (weekStartDate dt) = toRD dt - weekdayIdx dt from h2]
  unfold weekdayIdx
  omega

theorem toNat_digitChar {k : Nat} (hk : k < 10) : (Char.ofNat (48 + k)).toNat = 48 + k :=
  charOfNat_toNat (by omega)

theorem isDigitB_digitChar {k : Nat} (hk : k < 10) : isDigitB (Char.ofNat (48 + k)) = true := by
  simp only [isDigitB, toNat_digitChar hk, Bool.and_eq_true, decide_eq_true_eq]
  omega

theorem digitsToNat_two {a b : Nat} (ha : a < 10) (hb : b < 10) :
    digitsToNat [Char.ofNat (48 + a), Char.ofNat (48 + b)] = 10 * a + b := by
  simp only [digitsToNat, List.foldl_cons, List.foldl_nil, toNat_digitChar ha,
    toNat_digitChar hb]
  omega

theorem digitsToNat_four {a b c d : Nat} (ha : a < 10) (hb : b < 10) (hc : c < 10)
    (hd : d < 10) :
    digitsToNat [Char.ofNat (48 + a), Char.ofNat (48 + b), Char.ofNat (48 + c),
      Char.ofNat (48 + d)] = 1000 * a + 100 * b + 10 * c + d := by
  simp only [digitsToNat, List.foldl_cons, List.foldl_nil, toNat_digitChar ha,
    toNat_digitChar hb, toNat_digitChar hc, toNat_digitChar hd]
  omega

theorem parse_format (dt : Date) (h : dt.okay) : parseDate (formatDate dt) = some dt := by
  obtain ⟨y, m, d⟩ := dt
  unfold Date.okay at h
  dsimp only at h
  obtain ⟨hy1, hy2, hm1, hm2, hd1, hd2⟩ := h
  have hdim : d ≤ 31 := le_trans hd2 (daysInMonth_le y m)
  have h10 : ∀ k : Nat, k % 10 < 10 := fun k => Nat.mod_lt _ (by norm_num)
  have hdata : (formatDate ⟨y, m, d⟩).data =
      Char.ofNat (48 + y / 1000 % 10) :: Char.ofNat (48 + y / 100 % 10) ::
      Char.ofNat (48 + y / 10 % 10) :: Char.ofNat (48 + y % 10) :: '-' ::
      Char.ofNat (48 + m / 10 % 10) :: Char.ofNat (48 + m % 10) :: '-' ::
      Char.ofNat (48 + d / 10 % 10) :: Char.ofNat (48 + d % 10) :: [] := rfl
  have hym : digitsToNat [Char.ofNat (48 + y / 1000 % 10), Char.ofNat (48 + y / 100 % 10),
      Char.ofNat (48 + y / 10 % 10), Char.ofNat (48 + y % 10)] = y := by
    rw [digitsToNat_four (h10 _) (h10 _) (h10 _) (h10 _)]
    omega
  have hmm : digitsToNat [Char.ofNat (48 + m / 10 % 10), Char.ofNat (48 + m % 10)] = m := by
    rw [digitsToNat_two (h10 _) (h10 _)]
    omega
  have hdd : digitsToNat [Char.ofNat (48 + d / 10 % 10), Char.ofNat (48 + d % 10)] = d := by
    rw [digitsToNat_two (h10 _) (h10 _)]
    omega
  unfold parseDate
  rw [hdata]
  simp only [parseMonthPart, parseDayPart, isDigitB_digitChar (h10 _), Bool.and_self,
    Bool.and_true, Bool.true_and, if_pos rfl, hym, hmm, hdd, if_true]
  rw [if_pos ⟨hm1, hm2⟩]
  simp only [isDigitB_digitChar (h10 _), Bool.and_self, eq_self_iff_true, if_true, hdd]
  rw [if_pos ⟨hd1, hdim⟩]
  show (if 1 ≤ y ∧ 1 ≤ d ∧ d ≤ daysInMonth y m then some (⟨y, m, d⟩ : Date) else Option.none) = _
  rw [if_pos ⟨hy1, hd1, hd2⟩]

theorem isDigitB_toNat {c : Char} (h : isDigitB c = true) : 48 ≤ c.toNat ∧ c.toNat ≤ 57 := by
  simpa [isDigitB, Bool.and_eq_true, decide_eq_true_eq] using h

theorem parseMonthPart_bounds :
    ∀ {cs : List Char} {m : Nat} {rest : List Char},
      parseMonthPart cs = some (m, rest) → 1 ≤ m ∧ m ≤ 12 := by
  intro cs m rest h
  unfold parseMonthPart at h
  split at h
  · split at h <;> split_ifs at h <;>
      first
        | exact Option.noConfusion h
        | (simp only [Option.some.injEq, Prod.mk.injEq] at h
           omega)
  · exact Option.noConfusion h

theorem digitsToNat_four_le {a b c d : Char} (ha : isDigitB a = true) (hb : isDigitB b = true)
    (hc : isDigitB c = true) (hd : isDigitB d = true) : digitsToNat [a, b, c, d] ≤ 9999 := by
  obtain ⟨ha1, ha2⟩ := isDigitB_toNat ha
  obtain ⟨hb1, hb2⟩ := isDigitB_toNat hb
  obtain ⟨hc1, hc2⟩ := isDigitB_toNat hc
  obtain ⟨hd1, hd2⟩ := isDigitB_toNat hd
  simp only [digitsToNat, List.foldl_cons, List.foldl_nil]
  omega

theorem parseDate_okay : ∀ {s : String} {dt : Date}, parseDate s = some dt → dt.okay := by
  intro s dt h
  unfold parseDate at h
  split at h
  · rename_i y1 y2 y3 y4 rest0
    split at h
    · rename_i dash rest
      split_ifs at h with h1 h2
      · split at h
        · rename_i mr m rest2 hmonth
          split at h
          · rename_i dday hday
            split_ifs at h with h3
            injection h with h4
            subst h4
            obtain ⟨hm1, hm2⟩ := parseMonthPart_bounds hmonth
            simp only [Bool.and_eq_true] at h2
            have hy9999 := digitsToNat_four_le h2.1.1.1 h2.1.1.2 h2.1.2 h2.2
            exact ⟨h3.1, hy9999, hm1, hm2, h3.2.1, h3.2.2⟩
          · exact Option.noConfusion h
        · exact Option.noConfusion h
    · exact Option.noConfusion h
  · exact Option.noConfusion h

theorem format_inj {d1 d2 : Date} (h1 : d1.okay) (h2 : d2.okay)
    (h : formatDate d1 = formatDate d2) : d1 = d2 := by
  have e1 := parse_format d1 h1
  have e2 := parse_format d2 h2
  rw [h, e2] at e1
  injection e1 with e
  exact e.symm

theorem getWeekStart_parse {s : String} {dt : Date} (h : parseDate s = some dt) :
    getWeekStart s = formatDate (weekStartDate dt) := by
  unfold getWeekStart
  rw [h]
  rfl

theorem getMonthStart_parse {s : String} {dt : Date} (h : parseDate s = some dt) :
    getMonthStart s = formatDate ⟨dt.year, dt.month, 1⟩ := by
  unfold getMonthStart
  rw [h]

theorem weekStart_eq_iff {s t : String} {ds dt : Date} (hs : parseDate s = some ds)
    (ht : parseDate t = some dt) :
    getWeekStart s = getWeekStart t ↔ weekStartDate ds = weekStartDate dt := by
  rw [getWeekStart_parse hs, getWeekStart_parse ht]
  constructor
  · intro h
    exact format_inj (weekStartDate_spec ds (parseDate_okay hs)).1
      (weekStartDate_spec dt (parseDate_okay ht)).1 h
  · intro h
    rw [h]

theorem monthStart_okay (dt : Date) (h : dt.okay) : (⟨dt.year, dt.month, 1⟩ : Date).okay := by
  obtain ⟨h1, h2, h3, h4, _, _⟩ := h
  exact ⟨h1, h2, h3, h4, le_refl 1, daysInMonth_pos _ _⟩

theorem monthStart_eq_iff {s t : String} {ds dt : Date} (hs : parseDate s = some ds)
    (ht : parseDate t = some dt) :
    getMonthStart s = getMonthStart t ↔ (ds.year = dt.year ∧ ds.month = dt.month) := by
  rw [getMonthStart_parse hs, getMonthStart_parse ht]
  constructor
  · intro h
    have he := format_inj (monthStart_okay ds (parseDate_okay hs))
      (monthStart_okay dt (parseDate_okay ht)) h
    rw [Date.mk.injEq] at he
    exact ⟨he.1, he.2.1⟩
  · rintro ⟨h1, h2⟩
    rw [h1, h2]

theorem sameWeekB_iff {s t : String} {ds dt : Date} (hs : parseDate s = some ds)
    (ht : parseDate t = some dt) :
    sameWeekB s t = true ↔ getWeekStart s = getWeekStart t := by
  unfold sameWeekB
  rw [hs, ht]
  simp only [decide_eq_true_eq]
  exact (weekStart_eq_iff hs ht).symm

theorem sameMonthB_iff {s t : String} {ds dt : Date} (hs : parseDate s = some ds)
    (ht : parseDate t = some dt) :
    sameMonthB s t = true ↔ getMonthStart s = getMonthStart t := by
  unfold sameMonthB
  rw [hs, ht]
  simp only [decide_eq_true_eq]
  exact (monthStart_eq_iff hs ht).symm

theorem charListLt_trans :
    ∀ a b c : List Char, charListLt a b = true → charListLt b c = true →
      charListLt a c = true := by
  intro a
  induction a with
  | nil =>
      intro b c h1 h2
      cases c with
      | nil =>
          cases b with
          | nil => exact h1
          | cons y bs => exact absurd h2 (by simp [charListLt_nil_right])
      | cons z cs => rfl
  | cons x as ih =>
      intro b c h1 h2
      cases b with
      | nil => exact absurd h1 (by simp [charListLt])
      | cons y bs =>
          cases c with
          | nil => exact absurd h2 (by simp [charListLt_nil_right])
          | cons z cs =>
              simp only [charListLt, Bool.or_eq_true, Bool.and_eq_true, beq_iff_eq,
                decide_eq_true_eq] at h1 h2 ⊢
              rcases h1 with h1 | ⟨rfl, h1⟩ <;> rcases h2 with h2 | ⟨rfl, h2⟩
              · exact Or.inl (lt_trans h1 h2)
              · exact Or.inl h1
              · exact Or.inl h2
              · exact Or.inr ⟨rfl, ih bs cs h1 h2⟩

theorem strLtB_trans {a b c : String} (h1 : strLtB a b = true) (h2 : strLtB b c = true) :
    strLtB a c = true :=
  charListLt_trans a.data b.data c.data h1 h2

theorem strLeB_total (a b : String) : strLeB a b = true ∨ strLeB b a = true := by
  unfold strLeB
  rcases strLtB_total a b with h | rfl | h
  · left
    rw [strLtB_asymm h]
    rfl
  · left
    rw [strLtB_irrefl]
    rfl
  · right
    rw [strLtB_asymm h]
    rfl

theorem strLeB_trans {a b c : String} (h1 : strLeB a b = true) (h2 : strLeB b c = true) :
    strLeB a c = true := by
  unfold strLeB at *
  simp only [Bool.not_eq_true'] at h1 h2 ⊢
  by_contra hc
  simp only [Bool.not_eq_false] at hc
  rcases strLtB_total b c with h3 | rfl | h3
  · have h4 := strLtB_trans h3 hc
    rw [h1] at h4
    exact Bool.noConfusion h4
  · rw [h1] at hc
    exact Bool.noConfusion hc
  · rw [h3] at h2
    exact Bool.noConfusion h2

theorem datesOf_eq_map : ∀ {ps : List Problem}, (∀ p ∈ ps, p.date_solved ≠ "") →
    datesOf ps = ps.map Problem.date_solved := by
  intro ps
  induction ps with
  | nil => intro _; rfl
  | cons p t ih =>
      intro h
      have hp := h p (List.mem_cons_self p t)
      have ht := ih (fun q hq => h q (List.mem_cons_of_mem p hq))
      simp only [datesOf, List.filterMap_cons, List.map_cons]
      rw [if_pos hp]
      simp only [datesOf] at ht
      rw [ht]

theorem foldSetAdd_mem : ∀ (l acc : List String) (x : String),
    x ∈ l.foldl setAdd acc ↔ x ∈ acc ∨ x ∈ l := by
  intro l
  induction l with
  | nil =>
      intro acc x
      simp
  | cons a t ih =>
      intro acc x
      simp only [List.foldl_cons, ih, List.mem_cons]
      unfold setAdd
      by_cases h : a ∈ acc
      · rw [if_pos h]
        constructor
        · rintro (hx | hx)
          · exact Or.inl hx
          · exact Or.inr (Or.inr hx)
        · rintro (hx | rfl | hx)
          · exact Or.inl hx
          · exact Or.inl h
          · exact Or.inr hx
      · rw [if_neg h]
        simp only [List.mem_append, List.mem_singleton]
        tauto

theorem foldSetAdd_nodup : ∀ (l acc : List String), acc.Nodup → (l.foldl setAdd acc).Nodup := by
  intro l
  induction l with
  | nil =>
      intro acc h
      exact h
  | cons a t ih =>
      intro acc h
      simp only [List.foldl_cons]
      apply ih
      unfold setAdd
      by_cases hm : a ∈ acc
      · rw [if_pos hm]
        exact h
      · rw [if_neg hm]
        refine List.Nodup.append h (List.nodup_singleton a) ?_
        intro x hx hx2
        rw [List.mem_singleton] at hx2
        subst hx2
        exact hm hx

theorem firstDedup_mem (l : List String) (x : String) : x ∈ firstDedup l ↔ x ∈ l := by
  unfold firstDedup
  rw [foldSetAdd_mem]
  simp

theorem firstDedup_nodup (l : List String) : (firstDedup l).Nodup :=
  foldSetAdd_nodup l [] List.nodup_nil

theorem insertLe_perm {α : Type} (le : α → α → Bool) (x : α) :
    ∀ l : List α, (insertLe le x l).Perm (x :: l) := by
  intro l
  induction l with
  | nil => exact List.Perm.refl _
  | cons y t ih =>
      unfold insertLe
      by_cases h : le x y = true
      · rw [if_pos h]
      · rw [if_neg h]
        exact (ih.cons y).trans (List.Perm.swap x y t)

theorem sortByLe_perm {α : Type} (le : α → α → Bool) :
    ∀ l : List α, (sortByLe le l).Perm l := by
  intro l
  induction l with
  | nil => exact List.Perm.refl _
  | cons x t ih =>
      unfold sortByLe
      exact (insertLe_perm le x (sortByLe le t)).trans (ih.cons x)

theorem insertLe_pairwise {α : Type} (le : α → α → Bool)
    (htot : ∀ a b, le a b = true ∨ le b a = true)
    (htrans : ∀ a b c, le a b = true → le b c = true → le a c = true) (x : α) :
    ∀ l : List α, l.Pairwise (fun a b => le a b = true) →
      (insertLe le x l).Pairwise (fun a b => le a b = true) := by
  intro l
  induction l with
  | nil =>
      intro _
      exact List.pairwise_singleton _ x
  | cons y t ih =>
      intro h
      rw [List.pairwise_cons] at h
      unfold insertLe
      by_cases hxy : le x y = true
      · rw [if_pos hxy]
        rw [List.pairwise_cons]
        constructor
        · intro z hz
          rcases List.mem_cons.mp hz with rfl | hz2
          · exact hxy
          · exact htrans x y z hxy (h.1 z hz2)
        · rw [List.pairwise_cons]
          exact h
      · rw [if_neg hxy]
        rw [List.pairwise_cons]
        constructor
        · intro z hz
          have hz2 := (insertLe_perm le x t).mem_iff.mp hz
          rcases List.mem_cons.mp hz2 with rfl | hz3
          · rcases htot z y with h1 | h1
            · exact absurd h1 hxy
            · exact h1
          · exact h.1 z hz3
        · exact ih h.2

theorem sortByLe_pairwise {α : Type} (le : α → α → Bool)
    (htot : ∀ a b, le a b = true ∨ le b a = true)
    (htrans : ∀ a b c, le a b = true → le b c = true → le a c = true) :
    ∀ l : List α, (sortByLe le l).Pairwise (fun a b => le a b = true) := by
  intro l
  induction l with
  | nil => exact List.Pairwise.nil
  | cons x t ih =>
      unfold sortByLe
      exact insertLe_pairwise le htot htrans x _ ih

theorem strLt_of_le_ne {a b : String} (hle : strLeB a b = true) (hne : a ≠ b) :
    strLtB a b = true := by
  rcases strLtB_total a b with h | rfl | h
  · exact h
  · exact absurd rfl hne
  · unfold strLeB at hle
    rw [h] at hle
    exact Bool.noConfusion hle

theorem pairwise_strLt_of_sorted_nodup {l : List String}
    (h1 : l.Pairwise (fun a b => strLeB a b = true)) (h2 : l.Nodup) :
    l.Pairwise (fun a b => strLtB a b = true) :=
  (h1.and h2).imp (fun hab => strLt_of_le_ne hab.1 hab.2)

theorem buildEntries_map_date (keys : List String) (counts : String → Nat) :
    ∀ (l : List String) (t : Nat),
      (buildEntries keys counts t l).map DailyEntry.date = l := by
  intro l
  induction l with
  | nil =>
      intro t
      rfl
  | cons d rest ih =>
      intro t
      simp only [buildEntries, List.map_cons]
      rw [ih (t + counts d)]

theorem buildEntries_map_daily (keys : List String) (counts : String → Nat) :
    ∀ (l : List String) (t : Nat),
      (buildEntries keys counts t l).map DailyEntry.daily_count = l.map counts := by
  intro l
  induction l with
  | nil =>
      intro t
      rfl
  | cons d rest ih =>
      intro t
      simp only [buildEntries, List.map_cons]
      rw [ih (t + counts d)]

theorem buildEntries_fields (keys : List String) (counts : String → Nat) :
    ∀ (l : List String) (t : Nat) (e : DailyEntry), e ∈ buildEntries keys counts t l →
      e.daily_count = counts e.date ∧
      e.weekly_count =
        ((keys.filter (fun d2 => getWeekStart d2 = getWeekStart e.date)).map counts).sum ∧
      e.monthly_count =
        ((keys.filter (fun d2 => getMonthStart d2 = getMonthStart e.date)).map counts).sum ∧
      e.streak = 0 := by
  intro l
  induction l with
  | nil =>
      intro t e he
      exact absurd he (List.not_mem_nil e)
  | cons d rest ih =>
      intro t e he
      simp only [buildEntries] at he
      rcases List.mem_cons.mp he with rfl | he2
      · exact ⟨rfl, rfl, rfl, rfl⟩
      · exact ih (t + counts d) e he2

theorem buildEntries_get_total (keys : List String) (counts : String → Nat) :
    ∀ (l : List String) (t : Nat) (i : Nat) (h : i < (buildEntries keys counts t l).length),
      ((buildEntries keys counts t l).get ⟨i, h⟩).total_solved
        = t + ((l.take (i + 1)).map counts).sum := by
  intro l
  induction l with
  | nil =>
      intro t i h
      exact absurd h (by simp [buildEntries])
  | cons d rest ih =>
      intro t i h
      cases i with
      | zero =>
          simp only [buildEntries, List.take_succ_cons, List.take_zero,
            List.map_cons, List.map_nil, List.sum_cons, List.sum_nil]
          show t + counts d = t + (counts d + 0)
          omega
      | succ j =>
          simp only [buildEntries, List.get_cons_succ, List.take_succ_cons,
            List.map_cons, List.sum_cons]
          rw [ih (t + counts d) j]
          omega

theorem sum_map_add {α : Type} (f g : α → Nat) :
    ∀ l : List α, (l.map (fun x => f x + g x)).sum = (l.map f).sum + (l.map g).sum := by
  intro l
  induction l with
  | nil => rfl
  | cons a t ih =>
      simp only [List.map_cons, List.sum_cons, ih]
      omega

theorem sum_indicator (d : String) :
    ∀ ks : List String, (ks.map (fun k => if d = k then 1 else 0)).sum = ks.count d := by
  intro ks
  induction ks with
  | nil => rfl
  | cons k t ih =>
      simp only [List.map_cons, List.sum_cons, ih, List.count_cons, beq_iff_eq]
      by_cases h : d = k
      · subst h
        simp only [if_pos rfl]
        omega
      · rw [if_neg h, if_neg (fun h2 => h h2.symm)]
        omega

theorem sum_counts : ∀ (D ks : List String), ks.Nodup → (∀ x ∈ D, x ∈ ks) →
    (ks.map (fun k => D.count k)).sum = D.length := by
  intro D
  induction D with
  | nil =>
      intro ks _ _
      simp
  | cons d t ih =>
      intro ks hnd hsub
      have hmem : d ∈ ks := hsub d (List.mem_cons_self d t)
      have h1 : ∀ k : String, (d :: t).count k = t.count k + (if d = k then 1 else 0) := by
        intro k
        rw [List.count_cons]
        simp [beq_iff_eq]
      simp only [h1]
      rw [sum_map_add (fun k => t.count k) (fun k => if d = k then 1 else 0) ks]
      rw [ih ks hnd (fun x hx => hsub x (List.mem_cons_of_mem d hx))]
      rw [sum_indicator]
      rw [List.count_eq_one_of_mem hnd hmem]
      simp

/-- C7 (amended): for every record list whose `date_solved` fields are
non-empty and `strptime`-valid, `_calculate_daily_progress` returns one
entry per distinct date string, ordered strictly ascending in Python
string order; each entry's `daily_count` is the number of records
carrying its date string, its `weekly_count` (resp. `monthly_count`)
sums the daily counts of every distinct date string falling in the same
Monday-anchored calendar week (resp. the same calendar month), the week
anchor being the Monday at most six days on or before the date; and
`total_solved` is the cumulative running sum of daily counts, the last
entry's value being the number of input records. -/
theorem claim_C7_amended (ps : List Problem)
    (hps : ∀ p ∈ ps, p.date_solved ≠ "" ∧ (parseDate p.date_solved).isSome = true) :
    ((calculateDailyProgress ps).map DailyEntry.date).Nodup ∧
    (∀ d, d ∈ (calculateDailyProgress ps).map DailyEntry.date ↔ d ∈ datesOf ps) ∧
    ((calculateDailyProgress ps).map DailyEntry.date).Pairwise
      (fun a b => strLtB a b = true) ∧
    (∀ e ∈ calculateDailyProgress ps,
      e.daily_count = (datesOf ps).count e.date ∧
      e.weekly_count = (((firstDedup (datesOf ps)).filter
        (fun d2 => sameWeekB d2 e.date)).map (fun k => (datesOf ps).count k)).sum ∧
      e.monthly_count = (((firstDedup (datesOf ps)).filter
        (fun d2 => sameMonthB d2 e.date)).map (fun k => (datesOf ps).count k)).sum ∧
      (∃ dt, parseDate e.date = some dt ∧ weekdayIdx (weekStartDate dt) = 0 ∧
        0 ≤ toRD dt - toRD (weekStartDate dt) ∧ toRD dt - toRD (weekStartDate dt) ≤ 6)) ∧
    (∀ (i : Nat) (h : i < (calculateDailyProgress ps).length),
      ((calculateDailyProgress ps).get ⟨i, h⟩).total_solved
        = (((calculateDailyProgress ps).take (i + 1)).map DailyEntry.daily_count).sum) ∧
    (∀ h : calculateDailyProgress ps ≠ [],
      ((calculateDailyProgress ps).getLast h).total_solved = ps.length) := by
  have hne : ∀ p ∈ ps, p.date_solved ≠ "" := fun p hp => (hps p hp).1
  have hDparse : ∀ d ∈ datesOf ps, ∃ dt, parseDate d = some dt := by
    intro d hd
    simp only [datesOf] at hd
    rcases List.mem_filterMap.mp hd with ⟨p, hp, hpd⟩
    by_cases h : p.date_solved ≠ ""
    · rw [if_pos h] at hpd
      injection hpd with h2
      subst h2
      rcases Option.isSome_iff_exists.mp (hps p hp).2 with ⟨dt, hdt⟩
      exact ⟨dt, hdt⟩
    · rw [if_neg h] at hpd
      exact Option.noConfusion hpd
  have hDlen : (datesOf ps).length = ps.length := by
    rw [datesOf_eq_map hne, List.length_map]
  set D := datesOf ps with hDdef
  set keys := firstDedup D with hkeysdef
  set skeys := sortByLe strLeB keys with hskeysdef
  have hes : calculateDailyProgress ps = buildEntries keys (fun d => D.count d) 0 skeys := rfl
  have hperm : skeys.Perm keys := sortByLe_perm strLeB keys
  have hkeysnodup : keys.Nodup := firstDedup_nodup D
  have hsknodup : skeys.Nodup := (hperm.nodup_iff).mpr hkeysnodup
  have hsorted : skeys.Pairwise (fun a b => strLeB a b = true) :=
    sortByLe_pairwise strLeB strLeB_total (fun a b c h1 h2 => strLeB_trans h1 h2) keys
  have hstrict : skeys.Pairwise (fun a b => strLtB a b = true) :=
    pairwise_strLt_of_sorted_nodup hsorted hsknodup
  have hmemskeys : ∀ d, d ∈ skeys ↔ d ∈ D := by
    intro d
    rw [hperm.mem_iff]
    exact firstDedup_mem D d
  have hmapdate : (calculateDailyProgress ps).map DailyEntry.date = skeys := by
    rw [hes]
    exact buildEntries_map_date keys _ skeys 0
  refine ⟨?_, ?_, ?_, ?_, ?_, ?_⟩
  · rw [hmapdate]
    exact hsknodup
  · intro d
    rw [hmapdate]
    exact hmemskeys d
  · rw [hmapdate]
    exact hstrict
  · intro e he
    have hedate : e.date ∈ skeys := by
      rw [← hmapdate]
      exact List.mem_map_of_mem DailyEntry.date he
    have hedateD : e.date ∈ D := (hmemskeys e.date).mp hedate
    rcases hDparse e.date hedateD with ⟨dt, hdt⟩
    rw [hes] at he
    have hf := buildEntries_fields keys (fun d => D.count d) skeys 0 e he
    have hfilW : keys.filter (fun d2 => getWeekStart d2 = getWeekStart e.date)
        = keys.filter (fun d2 => sameWeekB d2 e.date) := by
      apply List.filter_congr
      intro x hx
      rcases hDparse x ((firstDedup_mem D x).mp hx) with ⟨dx, hdx⟩
      by_cases hw : getWeekStart x = getWeekStart e.date
      · rw [decide_eq_true hw, ((sameWeekB_iff hdx hdt).mpr hw)]
      · rw [decide_eq_false hw]
        rcases Bool.eq_false_or_eq_true (sameWeekB x e.date) with h2 | h2
        · exact absurd ((sameWeekB_iff hdx hdt).mp h2) hw
        · rw [h2]
    have hfilM : keys.filter (fun d2 => getMonthStart d2 = getMonthStart e.date)
        = keys.filter (fun d2 => sameMonthB d2 e.date) := by
      apply List.filter_congr
      intro x hx
      rcases hDparse x ((firstDedup_mem D x).mp hx) with ⟨dx, hdx⟩
      by_cases hw : getMonthStart x = getMonthStart e.date
      · rw [decide_eq_true hw, ((sameMonthB_iff hdx hdt).mpr hw)]
      · rw [decide_eq_false hw]
        rcases Bool.eq_false_or_eq_true (sameMonthB x e.date) with h2 | h2
        · exact absurd ((sameMonthB_iff hdx hdt).mp h2) hw
        · rw [h2]
    refine ⟨hf.1, ?_, ?_, ?_⟩
    · rw [hf.2.1, hfilW]
    · rw [hf.2.2.1, hfilM]
    · have hok := parseDate_okay hdt
      have hws := weekStartDate_spec dt hok
      have hb := weekdayIdx_bounds dt
      refine ⟨dt, hdt, hws.2.2, ?_, ?_⟩
      · rw [hws.2.1]
        omega
      · rw [hws.2.1]
        omega
  · intro i h
    have hT := buildEntries_get_total keys (fun d => D.count d) skeys 0 i h
    have hmap2 : ((calculateDailyProgress ps).take (i + 1)).map DailyEntry.daily_count
        = (skeys.take (i + 1)).map (fun d => D.count d) := by
      rw [List.map_take, List.map_take]
      rw [show (calculateDailyProgress ps).map DailyEntry.daily_count
        = skeys.map (fun d => D.count d) from by
          rw [hes]
          exact buildEntries_map_daily keys _ skeys 0]
    rw [hmap2]
    rw [show ((calculateDailyProgress ps).get ⟨i, h⟩).total_solved
      = 0 + ((skeys.take (i + 1)).map (fun d => D.count d)).sum from hT]
    omega
  · intro h
    have hlen : (calculateDailyProgress ps).length = skeys.length := by
      rw [← hmapdate, List.length_map]
    have hnonempty : 0 < (calculateDailyProgress ps).length := List.length_pos.mpr h
    rw [List.getLast_eq_get]
    have hT := buildEntries_get_total keys (fun d => D.count d) skeys 0
      ((calculateDailyProgress ps).length - 1)
      (by
        show (calculateDailyProgress ps).length - 1 < (calculateDailyProgress ps).length
        omega)
    rw [show ((calculateDailyProgress ps).get
        ⟨(calculateDailyProgress ps).length - 1, by omega⟩).total_solved
      = 0 + ((skeys.take ((calculateDailyProgress ps).length - 1 + 1)).map
          (fun d => D.count d)).sum from hT]
    have hlen1 : (calculateDailyProgress ps).length - 1 + 1 = skeys.length := by
      omega
    rw [hlen1, List.take_length]
    rw [sum_counts D skeys hsknodup (fun x hx => (hmemskeys x).mpr hx)]
    omega

/-- C7 counterexample: `strptime` with `%Y-%m-%d` also accepts non-padded
dates such as "2024-1-2", and `_calculate_daily_progress` groups and sorts
by the raw strings.  Two records carrying "2024-1-2" and "2024-01-02" — the
same calendar day — produce two entries, refuting "one entry per distinct
date"; and records carrying "2024-1-2" and "2024-01-10" produce entries
whose dates are January 10 followed by January 2, refuting "ordered
ascending by date". -/
theorem claim_C7_counterexample :
    ((calculateDailyProgress
        [{ date_solved := "2024-1-2" }, { date_solved := "2024-01-02" }]).map
      (fun e => parseDate e.date) = [some ⟨2024, 1, 2⟩, some ⟨2024, 1, 2⟩]) ∧
    ((calculateDailyProgress
        [{ date_solved := "2024-1-2" }, { date_solved := "2024-01-10" }]).map
      (fun e => parseDate e.date) = [some ⟨2024, 1, 10⟩, some ⟨2024, 1, 2⟩]) := by
  decide

/-- C7 witness: the amended theorem applied to three concretely dated
records (2024-01-05 twice and 2024-01-01 once), whose hypothesis is
discharged by evaluation. -/
theorem claim_C7_witness :
    (∀ p ∈ ([{ date_solved := "2024-01-05" }, { date_solved := "2024-01-01" },
        { date_solved := "2024-01-05" }] : List Problem),
      p.date_solved ≠ "" ∧ (parseDate p.date_solved).isSome = true) ∧
    ((calculateDailyProgress
        ([{ date_solved := "2024-01-05" }, { date_solved := "2024-01-01" },
          { date_solved := "2024-01-05" }] : List Problem)).map DailyEntry.date).Pairwise
      (fun a b => strLtB a b = true) ∧
    (∀ h : calculateDailyProgress
        ([{ date_solved := "2024-01-05" }, { date_solved := "2024-01-01" },
          { date_solved := "2024-01-05" }] : List Problem) ≠ [],
      ((calculateDailyProgress
        ([{ date_solved := "2024-01-05" }, { date_solved := "2024-01-01" },
          { date_solved := "2024-01-05" }] : List Problem)).getLast h).total_solved = 3) :=
  ⟨by decide,
   (claim_C7_amended [{ date_solved := "2024-01-05" }, { date_solved := "2024-01-01" },
      { date_solved := "2024-01-05" }] (by decide)).2.2.1,
   (claim_C7_amended [{ date_solved := "2024-01-05" }, { date_solved := "2024-01-01" },
      { date_solved := "2024-01-05" }] (by decide)).2.2.2.2.2⟩
